import Mathlib

/-!
# Filter engine of the Security Scanner extension

A shallow embedding of `src/ublock_integration.js` (class `UBlockIntegration`),
`src/ublock_service_worker.js` (class `UBlockServiceWorker`) and
`src/ublock_content_script.js` (class `UBlockContentScript`), followed by theorems about
filter classification, request matching, the compilation of declarative rules and cosmetic
filtering.

Modelling conventions
* A JavaScript string is a `List Char` (`JSString`); every marker the code looks for is
  ASCII, so prefix, suffix and substring tests agree with the UTF-16 view.
* `Map` and `Set` are lists in insertion order.
* JavaScript numbers used as counters are `Nat` (the id counter starts at 1 and grows by one
  per converted filter, far below 2^53).
* Platform services that are not part of the repository (`new URL(u).hostname`,
  `String.prototype.toLowerCase`) are fields of `Host`; `RegExp` is modelled for the fragment
  of expressions that `matchesPattern` can build.
-/

namespace UBlock

/-! ## JavaScript string primitives -/

abbrev JSString := List Char

namespace JS

/-- Embeds `s.startsWith(p)`. -/
def startsWith (s p : JSString) : Bool := p.isPrefixOf s

/-- Embeds `s.endsWith(p)`. -/
def endsWith (s p : JSString) : Bool := p.isSuffixOf s

/-- Embeds `s.includes(p)`: `p` occurs at some position of `s`. -/
def includes : JSString → JSString → Bool
  | [], p => p.isPrefixOf []
  | c :: cs, p => p.isPrefixOf (c :: cs) || includes cs p

/-- Embeds `s.indexOf(c)` for a one-character needle; `none` stands for `-1`. -/
def indexOf (c : Char) : JSString → Option Nat
  | [] => none
  | d :: ds => if d = c then some 0 else (indexOf c ds).map (· + 1)

/-- Embeds `s.substring(a, b)`: both indices are clamped to the length and swapped when `a > b`. -/
def substring (s : JSString) (a b : Nat) : JSString :=
  let a' := min a s.length
  let b' := min b s.length
  (s.drop (min a' b')).take (max a' b' - min a' b')

/-- Embeds `s.substring(a)`. -/
def substringFrom (s : JSString) (a : Nat) : JSString := s.drop a

/-- Embeds `s.split(sep)` for a one-character separator; the empty string gives one empty piece. -/
def split (sep : Char) : JSString → List JSString
  | [] => [[]]
  | c :: cs =>
    if c = sep then [] :: split sep cs
    else
      match split sep cs with
      | [] => [[c]]
      | piece :: pieces => (c :: piece) :: pieces

/-- Embeds `parts.join(sep)` for a one-character separator. -/
def join (sep : Char) : List JSString → JSString
  | [] => []
  | [p] => p
  | p :: q :: ps => p ++ sep :: join sep (q :: ps)

/-- White space and line terminators removed by `String.prototype.trim`. -/
def isWhiteSpace (c : Char) : Bool :=
  let n := c.toNat
  n = 9 || n = 10 || n = 11 || n = 12 || n = 13 || n = 32 || n = 0xA0 || n = 0x1680 ||
  (0x2000 ≤ n && n ≤ 0x200A) || n = 0x2028 || n = 0x2029 || n = 0x202F || n = 0x205F ||
  n = 0x3000 || n = 0xFEFF

/-- Embeds `s.trim()`. -/
def trim (s : JSString) : JSString :=
  ((s.dropWhile isWhiteSpace).reverse.dropWhile isWhiteSpace).reverse

end JS

/-! ## Filter records (`parseFilter`, `parseOptions`) -/

/-- The values of `filter.type`. -/
inductive FilterType
  | unknown
  | cosmetic
  | cosmetic_exception
  | network_domain
  | network_start
  | network_end
  | network_pattern
  | network_plain
  deriving DecidableEq, Repr

/-- The string stored in `filter.type`. -/
def FilterType.name : FilterType → JSString
  | .unknown => "unknown".toList
  | .cosmetic => "cosmetic".toList
  | .cosmetic_exception => "cosmetic_exception".toList
  | .network_domain => "network_domain".toList
  | .network_start => "network_start".toList
  | .network_end => "network_end".toList
  | .network_pattern => "network_pattern".toList
  | .network_plain => "network_plain".toList

/-- A value stored in the options object: `true` for a bare key, a string for `key=value`. -/
inductive OptVal
  | flag
  | str (value : JSString)
  deriving DecidableEq, Repr

/-- JavaScript truthiness of an option value (`undefined` is `none`). -/
def truthy : Option OptVal → Bool
  | none => false
  | some .flag => true
  | some (.str v) => !v.isEmpty

/-- The options object: own properties in creation order. -/
abbrev Options := List (JSString × OptVal)

/-- Embeds `options[key]` read for the keys the code reads (none of them is inherited). -/
def Options.get (o : Options) (key : JSString) : Option OptVal :=
  (o.find? (fun kv => kv.1 = key)).map (·.2)

/-- Own-property update used by `Options.set`. -/
def Options.assign : Options → JSString → OptVal → Options
  | [], key, v => [(key, v)]
  | (k, w) :: rest, key, v =>
    if k = key then (k, v) :: rest else (k, w) :: Options.assign rest key v

/-- Embeds `options[key] = v`. Assigning a primitive to `__proto__` leaves the object unchanged. -/
def Options.set (o : Options) (key : JSString) (v : OptVal) : Options :=
  if key = "__proto__".toList then o else Options.assign o key v

structure Filter where
  raw : JSString
  type : FilterType
  pattern : JSString
  options : Options
  exception : Bool
  deriving DecidableEq, Repr

/-- One iteration of the loop of `parseOptions`. -/
def parseOptionsStep (options : Options) (part : JSString) : Options :=
  let trimmed := JS.trim part
  if JS.includes trimmed ['='] then
    let pieces := (JS.split '=' trimmed).take 2
    let key := pieces.headD []
    let value := pieces.tail.headD []
    options.set (JS.trim key) (.str (JS.trim value))
  else
    options.set trimmed .flag

/-- Embeds `parseOptions(optionsStr)`. -/
def parseOptions (optionsStr : JSString) : Options :=
  (JS.split ',' optionsStr).foldl parseOptionsStep []

/-- The `if`/`else if` chain of `parseFilter` that determines `filter.type`. -/
def determineType (line : JSString) : FilterType :=
  if JS.includes line ['#', '#'] then .cosmetic
  else if JS.includes line ['#', '@', '#'] then .cosmetic_exception
  else if JS.startsWith line ['|', '|'] then .network_domain
  else if JS.startsWith line ['|'] then .network_start
  else if JS.endsWith line ['|'] then .network_end
  else if JS.includes line ['*'] || JS.includes line ['^'] then .network_pattern
  else .network_plain

/-- Embeds `parseFilter(line)`. The code returns a record for every string. -/
def parseFilter (line0 : JSString) : Filter :=
  let exception := JS.startsWith line0 ['@', '@']
  let line := if exception then JS.substringFrom line0 2 else line0
  let (pattern, options) :=
    match JS.indexOf '$' line with
    | some dollarIndex =>
      (JS.substring line 0 dollarIndex, parseOptions (JS.substringFrom line (dollarIndex + 1)))
    | none => (line, [])
  { raw := line0, type := determineType line, pattern := pattern, options := options,
    exception := exception }

/-- Embeds `parseFilterList(text)`. -/
def parseFilterList (text : JSString) : List Filter :=
  (JS.split '\n' text).foldl
    (fun filters line =>
      let trimmed := JS.trim line
      if trimmed.isEmpty || JS.startsWith trimmed ['!'] then filters
      else filters ++ [parseFilter trimmed])
    []

/-! ## Regular expressions built by `matchesPattern`

`new RegExp(source)` and `regex.test(url)` belong to the platform. They are modelled for the
expressions `matchesPattern` can build: literal characters, identity escapes of syntax
characters, `.`, the assertion `^` and the quantifier `*`. `RegExp.compile` answers `none`
for a source that the platform rejects or that lies outside this fragment;
`regexSource_compiles` shows that the source built from a pattern is always inside it. -/

inductive Atom
  | char (c : Char)
  | dot
  deriving DecidableEq, Repr

inductive Term
  | one (a : Atom)
  | star (a : Atom)
  | bol
  deriving DecidableEq, Repr

inductive Tok
  | atom (a : Atom)
  | caret
  | star
  deriving DecidableEq, Repr

def isLineTerminator (c : Char) : Bool :=
  c.toNat = 10 || c.toNat = 13 || c.toNat = 0x2028 || c.toNat = 0x2029

/-- One input character against one atom; `.` accepts everything but a line terminator. -/
def Atom.accepts : Atom → Char → Bool
  | .char d, c => c = d
  | .dot, c => !isLineTerminator c

/-- The syntax characters of the pattern grammar. -/
def isSyntaxCharacter (c : Char) : Bool := c ∈ "^$\\.*+?()[]{}|".toList

/-- Tokens of a pattern source. -/
def RegExp.lex : JSString → Option (List Tok)
  | [] => some []
  | c :: rest =>
    if c = '\\' then
      match rest with
      | [] => none
      | d :: rest' =>
        if isSyntaxCharacter d then (RegExp.lex rest').map (Tok.atom (.char d) :: ·) else none
    else if c = '.' then (RegExp.lex rest).map (Tok.atom .dot :: ·)
    else if c = '^' then (RegExp.lex rest).map (Tok.caret :: ·)
    else if c = '*' then (RegExp.lex rest).map (Tok.star :: ·)
    else if c ∈ "$+?()[{}|".toList then none
    else (RegExp.lex rest).map (Tok.atom (.char c) :: ·)

/-- Terms of a pattern: a `*` must follow an atom. -/
def RegExp.build : List Tok → Option (List Term)
  | [] => some []
  | .atom a :: .star :: rest => (RegExp.build rest).map (Term.star a :: ·)
  | .atom a :: rest => (RegExp.build rest).map (Term.one a :: ·)
  | .caret :: rest => (RegExp.build rest).map (Term.bol :: ·)
  | .star :: _ => none

/-- Embeds `new RegExp(source)` (no flags); `none` when the constructor throws. -/
def RegExp.compile (source : JSString) : Option (List Term) :=
  (RegExp.lex source).bind RegExp.build

/-- Backtracking over `a*`: `k` is the rest of the pattern, `atStart` tells whether the
current position is index 0 of the input. -/
def starLoop (accepts : Char → Bool) (k : Bool → JSString → Bool) : Bool → JSString → Bool
  | atStart, [] => k atStart []
  | atStart, c :: s => k atStart (c :: s) || (accepts c && starLoop accepts k false s)

/-- Match a sequence of terms at the current position. -/
def matchTerms : List Term → Bool → JSString → Bool
  | [], _, _ => true
  | .bol :: ts, atStart, s => atStart && matchTerms ts atStart s
  | .one a :: ts, _, s =>
    match s with
    | [] => false
    | c :: s' => a.accepts c && matchTerms ts false s'
  | .star a :: ts, atStart, s => starLoop a.accepts (matchTerms ts) atStart s

/-- Try every start position from the current one on. -/
def searchFrom (re : List Term) : Bool → JSString → Bool
  | atStart, [] => matchTerms re atStart []
  | atStart, c :: s => matchTerms re atStart (c :: s) || searchFrom re false s

/-- Embeds `regex.test(s)` for a regex without flags. -/
def RegExp.test (re : List Term) (s : JSString) : Bool := searchFrom re true s

/-! ## Request matching (`UBlockIntegration`) -/

/-- First `replace` of `matchesPattern`: a backslash before each of `.*+?^${}()|[]\`. -/
def escapeSpecial (pattern : JSString) : JSString :=
  pattern.flatMap (fun c => if c ∈ ".*+?^${}()|[]\\".toList then ['\\', c] else [c])

/-- Second `replace` of `matchesPattern`: every `*` becomes `.*`. -/
def starToDotStar (s : JSString) : JSString :=
  s.flatMap (fun c => if c = '*' then ".*".toList else [c])

/-- Third `replace` of `matchesPattern`: every `^` becomes `[^a-zA-Z0-9._-]`. -/
def caretToClass (s : JSString) : JSString :=
  s.flatMap (fun c => if c = '^' then "[^a-zA-Z0-9._-]".toList else [c])

/-- The value of `regexPattern` in `matchesPattern`. -/
def regexSource (pattern : JSString) : JSString :=
  caretToClass (starToDotStar (escapeSpecial pattern))

/-- Embeds `matchesPattern(url, pattern)`. -/
def matchesPattern (url pattern : JSString) : Bool :=
  match RegExp.compile (regexSource pattern) with
  | some regex => RegExp.test regex url
  | none => false

/-- Embeds `matchesDomainPattern(url, hostname, pattern)`. -/
def matchesDomainPattern (_url hostname pattern : JSString) : Bool :=
  if !JS.startsWith pattern ['|', '|'] || !JS.endsWith pattern ['^'] then false
  else
    let domain := JS.substring pattern 2 (pattern.length - 1)
    hostname = domain || JS.endsWith hostname ('.' :: domain)

/-- Embeds `matchesFilter(url, hostname, domain, filter)`. -/
def matchesFilter (url hostname _domain : JSString) (filter : Filter) : Bool :=
  let pattern := filter.pattern
  match filter.type with
  | .network_domain => matchesDomainPattern url hostname pattern
  | .network_start => JS.startsWith url (JS.substringFrom pattern 1)
  | .network_end => JS.endsWith url (JS.substring pattern 0 (pattern.length - 1))
  | .network_pattern => matchesPattern url pattern
  | .network_plain => JS.includes url pattern
  | _ => false

/-- Platform services used by the engine. -/
structure Host where
  /-- `new URL(url).hostname`; `none` when the constructor throws. -/
  urlHostname : JSString → Option JSString
  /-- `String.prototype.toLowerCase`. -/
  toLowerCase : JSString → JSString

/-- Embeds `extractHostname(url)`. -/
def extractHostname (H : Host) (url : JSString) : JSString :=
  match H.urlHostname url with
  | some hostname => H.toLowerCase hostname
  | none => []

/-- Embeds `extractDomain(hostname)`. -/
def extractDomain (hostname : JSString) : JSString :=
  let parts := JS.split '.' hostname
  if parts.length < 2 then hostname
  else JS.join '.' (parts.drop (parts.length - 2))

/-- Embeds `set.add(x)` on a set kept in insertion order. -/
def setAdd (s : List JSString) (x : JSString) : List JSString :=
  if x ∈ s then s else s ++ [x]

/-- The mutable fields of `UBlockIntegration`. -/
structure Engine where
  initialized : Bool
  filterLists : List (JSString × List Filter)
  blockedRequests : List JSString
  whitelistDomains : List JSString
  customFilters : List Filter
  deriving DecidableEq, Repr

/-- The request descriptor handed over by the network layer. -/
structure Request where
  url : JSString
  initiator : Option JSString
  resourceType : Option JSString
  deriving DecidableEq, Repr

/-- Embeds `isWhitelisted(url, hostname, domain)`. -/
def isWhitelisted (whitelistDomains : List JSString) (_url hostname domain : JSString) : Bool :=
  if whitelistDomains.contains hostname || whitelistDomains.contains domain then true
  else whitelistDomains.any (fun whitelistDomain => JS.endsWith hostname ('.' :: whitelistDomain))

/-- The inner loop of `shouldBlockRequest`: `some b` is `return b`, `none` falls out of the
loop. -/
def scanFilters (url hostname domain : JSString) : List Filter → Option Bool
  | [] => none
  | filter :: filters =>
    if matchesFilter url hostname domain filter then
      if filter.exception then some false else some true
    else scanFilters url hostname domain filters

/-- The outer loop of `shouldBlockRequest` over the entries of `filterLists`. -/
def scanLists (url hostname domain : JSString) : List (JSString × List Filter) → Option Bool
  | [] => none
  | (_, filters) :: lists =>
    match scanFilters url hostname domain filters with
    | some verdict => some verdict
    | none => scanLists url hostname domain lists

/-- Embeds `shouldBlockRequest(request)`: the returned value and the engine afterwards. -/
def shouldBlockRequest (H : Host) (e : Engine) (request : Request) : Bool × Engine :=
  if !e.initialized then (false, e)
  else
    let url := request.url
    let hostname := extractHostname H url
    let domain := extractDomain hostname
    if isWhitelisted e.whitelistDomains url hostname domain then (false, e)
    else
      match scanLists url hostname domain e.filterLists with
      | some true => (true, { e with blockedRequests := setAdd e.blockedRequests url })
      | some false => (false, e)
      | none => (false, e)

/-- Embeds `addCustomFilter(filterText)`. -/
def addCustomFilter (e : Engine) (filterText : JSString) : Engine :=
  { e with customFilters := e.customFilters ++ [parseFilter filterText] }

/-- Embeds `addToWhitelist(domain)`. -/
def addToWhitelist (H : Host) (e : Engine) (domain : JSString) : Engine :=
  { e with whitelistDomains := setAdd e.whitelistDomains (H.toLowerCase domain) }

/-- Embeds `removeFromWhitelist(domain)`. -/
def removeFromWhitelist (H : Host) (e : Engine) (domain : JSString) : Engine :=
  { e with whitelistDomains := e.whitelistDomains.filter (· ≠ H.toLowerCase domain) }

/-! ## Compilation of declarative rules (`UBlockServiceWorker`) -/

structure Condition where
  urlFilter : JSString
  resourceTypes : List JSString
  initiatorDomains : Option (List JSString)
  deriving DecidableEq, Repr

/-- A declarative rule; `action` is always `{ type: 'block' }`. -/
structure Rule where
  id : Nat
  priority : Nat
  action : JSString
  condition : Condition
  deriving DecidableEq, Repr

/-- The mutable fields of `UBlockServiceWorker`. -/
structure Worker where
  integration : Engine
  declarativeRules : List Rule
  ruleIdCounter : Nat
  deriving DecidableEq, Repr

/-- Embeds `pattern.replace(/\^$/, '')`: a `^` at the very end is removed. -/
def dropTrailingCaret (s : JSString) : JSString :=
  if JS.endsWith s ['^'] then s.take (s.length - 1) else s

/-- Embeds `convertPatternToUrlFilter(pattern)`. -/
def convertPatternToUrlFilter (pattern : JSString) : JSString :=
  if JS.startsWith pattern ['|', '|'] then dropTrailingCaret (JS.substringFrom pattern 2)
  else if JS.startsWith pattern ['|'] then JS.substringFrom pattern 1
  else if JS.endsWith pattern ['|'] then JS.substring pattern 0 (pattern.length - 1)
  else pattern

/-- The local `resourceTypes` of `getResourceTypes`. -/
def defaultResourceTypes : List JSString :=
  ["main_frame", "sub_frame", "stylesheet", "script", "image", "font", "object",
    "xmlhttprequest", "ping", "csp_report", "media", "websocket", "other"].map String.toList

/-- Embeds `getResourceTypes(options)`. -/
def getResourceTypes (options : Options) : List JSString :=
  if truthy (options.get "script".toList) then ["script".toList]
  else if truthy (options.get "image".toList) then ["image".toList]
  else if truthy (options.get "stylesheet".toList) then ["stylesheet".toList]
  else if truthy (options.get "font".toList) then ["font".toList]
  else if truthy (options.get "media".toList) then ["media".toList]
  else if truthy (options.get "object".toList) then ["object".toList]
  else if truthy (options.get "xmlhttprequest".toList) then ["xmlhttprequest".toList]
  else defaultResourceTypes

/-- Embeds `parseDomains(domainStr)`; `none` is the `TypeError` raised when the argument is `true`,
which has no `split`. -/
def parseDomains : OptVal → Option (List JSString)
  | .flag => none
  | .str domainStr =>
    some (((JS.split ',' domainStr).map JS.trim).filter (fun d => !d.isEmpty))

/-- Embeds `convertFilterToRule(filter)` with the counter before the call: the returned value
(`none` is `null`) and the counter afterwards. -/
def convertFilterToRule (ruleIdCounter : Nat) (filter : Filter) : Option Rule × Nat :=
  let rule : Rule :=
    { id := ruleIdCounter, priority := 1, action := "block".toList,
      condition :=
        { urlFilter := convertPatternToUrlFilter filter.pattern,
          resourceTypes := getResourceTypes filter.options,
          initiatorDomains := none } }
  let counter := ruleIdCounter + 1
  if truthy (filter.options.get "domain".toList) then
    match (filter.options.get "domain".toList).bind parseDomains with
    | some domains =>
      (some { rule with condition := { rule.condition with initiatorDomains := some domains } },
        counter)
    | none => (none, counter)
  else (some rule, counter)

/-- The inner loop of `generateDeclarativeRules` over one list; the state is
`(declarativeRules, ruleIdCounter)`. The `break` ends this loop only. -/
def generateFromList : List Filter → List Rule × Nat → List Rule × Nat
  | [], state => state
  | filter :: filters, (rules, counter) =>
    if JS.startsWith filter.type.name "network".toList && !filter.exception then
      match convertFilterToRule counter filter with
      | (some rule, counter') =>
        if (rules ++ [rule]).length ≥ 5000 then (rules ++ [rule], counter')
        else generateFromList filters (rules ++ [rule], counter')
      | (none, counter') => generateFromList filters (rules, counter')
    else generateFromList filters (rules, counter)

/-- The outer loop of `generateDeclarativeRules` over the entries of `filterLists`. -/
def generateFromLists : List (JSString × List Filter) → List Rule × Nat → List Rule × Nat
  | [], state => state
  | (_, filters) :: lists, state => generateFromLists lists (generateFromList filters state)

/-- Embeds `generateDeclarativeRules()`. -/
def generateDeclarativeRules (w : Worker) : Worker :=
  let state := generateFromLists w.integration.filterLists (w.declarativeRules, w.ruleIdCounter)
  { w with declarativeRules := state.1, ruleIdCounter := state.2 }

/-- Embeds `initializeDeclarativeRules()` when the platform calls succeed: the rule set is emptied
and generated afresh. -/
def initializeDeclarativeRules (w : Worker) : Worker :=
  generateDeclarativeRules { w with declarativeRules := [] }

/-- The engine right after `new UBlockIntegration()`, before any list is loaded. -/
def Engine.new : Engine :=
  { initialized := false, filterLists := [], blockedRequests := [], whitelistDomains := [],
    customFilters := [] }

/-- The worker right after `new UBlockServiceWorker()`. -/
def Worker.new : Worker :=
  { integration := Engine.new, declarativeRules := [], ruleIdCounter := 1 }

/-! ## The documented classification, in the words of the specification -/

/-- The line inspected by the classification: the line without a leading `@@`. -/
def afterExceptionMarker (line : JSString) : JSString :=
  if "@@".toList <+: line then line.drop 2 else line

/-- The documented precedence of kinds, stated with the list order relations. -/
def documentedKind (rest : JSString) : FilterType :=
  if "##".toList <:+: rest then .cosmetic
  else if "#@#".toList <:+: rest then .cosmetic_exception
  else if "||".toList <+: rest then .network_domain
  else if "|".toList <+: rest then .network_start
  else if "|".toList <:+ rest then .network_end
  else if '*' ∈ rest ∨ '^' ∈ rest then .network_pattern
  else .network_plain

/-- The rules of all loaded lists, in list-load order and then rule order within the list. -/
def Engine.rules (e : Engine) : List Filter := e.filterLists.flatMap (·.2)

/-- The hostname `shouldBlockRequest` computes for a request. -/
def requestHostname (H : Host) (request : Request) : JSString := extractHostname H request.url

/-- A rule matches a request, as tested inside `shouldBlockRequest`. -/
def ruleMatches (H : Host) (request : Request) (filter : Filter) : Bool :=
  matchesFilter request.url (requestHostname H request)
    (extractDomain (requestHostname H request)) filter

/-- The whitelist test of `shouldBlockRequest` for a request. -/
def requestWhitelisted (H : Host) (e : Engine) (request : Request) : Bool :=
  isWhitelisted e.whitelistDomains request.url (requestHostname H request)
    (extractDomain (requestHostname H request))

/-! ## Sample data for the instances -/

/-- A platform whose URL parser answers `hostname` and whose lowercasing is the identity
(the sample hostnames are lowercase). -/
def sampleHost (hostname : String) : Host :=
  { urlHostname := fun _ => some hostname.toList, toLowerCase := id }

/-- An initialised engine with one loaded list, parsed from `lines`, and a whitelist. -/
def sampleEngine (lines whitelist : List String) : Engine :=
  { initialized := true,
    filterLists := [("list".toList, lines.map (fun l => parseFilter l.toList))],
    blockedRequests := [],
    whitelistDomains := whitelist.map String.toList,
    customFilters := [] }

/-- A request that carries only a URL. -/
def sampleRequest (url : String) : Request :=
  { url := url.toList, initiator := none, resourceType := none }

/-- A worker fresh from its constructor whose engine holds one list parsed from `lines`. -/
def sampleWorker (lines : List String) : Worker :=
  { Worker.new with integration := sampleEngine lines [] }

/-! ## Notions used to state the compilation properties -/

/-- The filters that `generateDeclarativeRules` hands to `convertFilterToRule`: a network
kind and no exception flag. -/
def isEligible (filter : Filter) : Bool :=
  JS.startsWith filter.type.name "network".toList && !filter.exception

/-- One compilation: the engine's lists are `lists` at that moment and
`initializeDeclarativeRules` runs. -/
def compileWith (w : Worker) (lists : List (JSString × List Filter)) : Worker :=
  initializeDeclarativeRules { w with integration := { w.integration with filterLists := lists } }

/-- The rule sets produced by successive compilations of one worker, one per catalog. -/
def compilations : Worker → List (List (JSString × List Filter)) → List (List Rule)
  | _, [] => []
  | w, lists :: later =>
    (compileWith w lists).declarativeRules :: compilations (compileWith w lists) later

/-- The rules `new` were numbered from a counter that went from `c` to `c'`: their ids
increase strictly and lie in `[c, c')`. -/
def FreshFrom (c : Nat) (new : List Rule) (c' : Nat) : Prop :=
  c ≤ c' ∧ (new.map (·.id)).Pairwise (· < ·) ∧ ∀ r ∈ new, c ≤ r.id ∧ r.id < c'

/-- The state `(rules, counter)` numbers its rules consecutively from `base`. -/
def Consecutive (base : Nat) (state : List Rule × Nat) : Prop :=
  state.2 = base + state.1.length ∧ ∀ (k : Nat) (r : Rule), state.1[k]? = some r → r.id = base + k

/-! ## What the built expression compiles to -/

/-- The source text that the three replacements of `matchesPattern` produce for one
character of the pattern. -/
def charSource (c : Char) : JSString :=
  if c = '*' then "\\.*".toList
  else if c = '^' then "\\[^a-zA-Z0-9._-]".toList
  else if c ∈ ".*+?^${}()|[]\\".toList then ['\\', c]
  else [c]

/-- The tokens of `charSource c`. -/
def charToks (c : Char) : List Tok :=
  if c = '*' then [.atom (.char '.'), .star]
  else if c = '^' then
    [.atom (.char '['), .caret, .atom (.char 'a'), .atom (.char '-'), .atom (.char 'z'),
      .atom (.char 'A'), .atom (.char '-'), .atom (.char 'Z'), .atom (.char '0'),
      .atom (.char '-'), .atom (.char '9'), .atom .dot, .atom (.char '_'), .atom (.char '-'),
      .atom (.char ']')]
  else [.atom (.char c)]

/-- The terms of `charSource c`: `*` repeats a literal dot, `^` is a literal `[` followed by
the start-of-input assertion and thirteen more atoms, any other character is itself. -/
def charTerms (c : Char) : List Term :=
  if c = '*' then [.star (.char '.')]
  else if c = '^' then
    [.one (.char '['), .bol, .one (.char 'a'), .one (.char '-'), .one (.char 'z'),
      .one (.char 'A'), .one (.char '-'), .one (.char 'Z'), .one (.char '0'),
      .one (.char '-'), .one (.char '9'), .one .dot, .one (.char '_'), .one (.char '-'),
      .one (.char ']')]
  else [.one (.char c)]

/-- The token list begins with a quantifier. -/
def beginsWithStar : List Tok → Bool
  | .star :: _ => true
  | _ => false

/-- The regular expression that `matchesPattern` tests the URL against. -/
def patternTerms (pattern : JSString) : List Term := pattern.flatMap charTerms

/-! ## Notions used to state the conversion properties -/

/-- The resource types an option can restrict a rule to, in the order `getResourceTypes`
looks at them. -/
def restrictingTypes : List JSString :=
  ["script", "image", "stylesheet", "font", "media", "object", "xmlhttprequest"].map
    String.toList

/-- The options name the type `t`: the key is present as a bare flag or with a non-empty
value. -/
def namesType (options : Options) (t : JSString) : Bool := truthy (options.get t)

/-- The lines of a list text that carry a filter, in the words of the specification: the
text split on newline, each line trimmed, keeping the lines that are non-empty and do not
begin with `!`. -/
def filterLines (text : JSString) : List JSString :=
  ((JS.split '\n' text).map JS.trim).filter (fun l => decide (l ≠ [] ∧ ¬ ['!'] <+: l))

/-- The five network kinds. -/
def isNetworkKind (t : FilterType) : Prop :=
  t = .network_domain ∨ t = .network_start ∨ t = .network_end ∨ t = .network_pattern ∨
    t = .network_plain

/-! ## Notions used to state option parsing -/

/-- The key and value that one iteration of the loop of `parseOptions` assigns. -/
def stepEntry (part : JSString) : JSString × OptVal :=
  if JS.includes (JS.trim part) ['='] then
    (JS.trim (((JS.split '=' (JS.trim part)).take 2).headD []),
      .str (JS.trim (((JS.split '=' (JS.trim part)).take 2).tail.headD [])))
  else (JS.trim part, .flag)

/-- The entry that one comma-separated piece of the options tail stands for, in the words of
the specification: `key` alone maps the key to true, `key=value` maps the text before the
`=` to the text after it, both trimmed. -/
def documentedEntry (part : JSString) : JSString × OptVal :=
  match JS.indexOf '=' (JS.trim part) with
  | none => (JS.trim part, .flag)
  | some i => (JS.trim ((JS.trim part).take i), .str (JS.trim ((JS.trim part).drop (i + 1))))

/-- The value of the last entry with the given key, if there is one. -/
def lastValue (entries : List (JSString × OptVal)) (key : JSString) : Option OptVal :=
  (entries.reverse.find? (fun e => e.1 = key)).map (·.2)

/-! ## Notions used to state what the verdict depends on -/

/-- The engine with every loaded list cut down to the rules that satisfy `keep`. -/
def Engine.keepRules (e : Engine) (keep : Filter → Bool) : Engine :=
  { e with filterLists := e.filterLists.map (fun l => (l.1, l.2.filter keep)) }

/-- The kind, pattern and exception flag of a rule. -/
def ruleCore (f : Filter) : FilterType × JSString × Bool := (f.type, f.pattern, f.exception)

/-- The `try`/`catch` block of `matchesPattern` for an arbitrary expression source: the result
of the test, and false when the constructor throws. -/
def tryTest (source url : JSString) : Bool :=
  match RegExp.compile source with
  | some regex => RegExp.test regex url
  | none => false

/-! ## Cosmetic filtering (`UBlockContentScript`)

The document belongs to the platform. An element's state is cut down to what the content
script writes: six inline style properties and the attributes. Attribute names are compared
as given. Platform services (`element.matches`, the ancestor chain, `document.querySelector`,
the style setter's acceptance of a value, the match of the attribute-selector expression) are
fields of `Dom`. -/

/-- Embeds `s.split(sep)` for a separator string: pieces between the leftmost
non-overlapping occurrences; `skip` counts the characters of a found separator still to pass
and `piece` holds the current piece reversed. -/
def JS.splitOnGo (sep : JSString) : JSString → Nat → JSString → List JSString
  | [], _, piece => [piece.reverse]
  | _ :: cs, skip + 1, piece => JS.splitOnGo sep cs skip piece
  | c :: cs, 0, piece =>
    if sep.isPrefixOf (c :: cs) then piece.reverse :: JS.splitOnGo sep cs (sep.length - 1) []
    else JS.splitOnGo sep cs 0 (c :: piece)

/-- Embeds `s.split(sep)` for a non-empty separator string. -/
def JS.splitOn (sep s : JSString) : List JSString := JS.splitOnGo sep s 0 []

/-- The part of an element that the content script reads and writes. -/
structure ElementState where
  display : JSString
  visibility : JSString
  opacity : JSString
  height : JSString
  width : JSString
  overflow : JSString
  attributes : List (JSString × JSString)
  deriving DecidableEq, Repr

/-- The state of every element of the document. -/
abbrev Page (Element : Type) := Element → ElementState

/-- Platform services of the document. -/
structure Dom (Element : Type) where
  /-- `element.matches(selector)` on the current page; `none` when it throws. -/
  elementMatches : Page Element → Element → JSString → Option Bool
  /-- The chain `element.parentElement`, `element.parentElement.parentElement`, ... -/
  ancestors : Element → List Element
  /-- `document.querySelector(selector)`; `none` is `null`. -/
  querySelector : Page Element → JSString → Option Element
  /-- `document.querySelectorAll('*')`. -/
  allElements : List Element
  /-- `selector.match(/\[([^=]+)(?:=([^\]]+))?\]/)`: `none` is `null`, otherwise the first
  and the second group (`none` when the second group took no part). -/
  attributeSelectorMatch : JSString → Option (JSString × Option JSString)
  /-- Whether the style setter accepts a non-empty value for a property. -/
  styleAccepts : JSString → JSString → Bool

/-- Embeds `element.style[property] = value`: the empty string removes the property, a value
the platform rejects leaves it as it was. -/
def setStyle {Element : Type} (dom : Dom Element) (property old value : JSString) : JSString :=
  if value.isEmpty then [] else if dom.styleAccepts property value then value else old

/-- Embeds `element.getAttribute(name)`; `none` is `null`. -/
def getAttribute (attributes : List (JSString × JSString)) (name : JSString) : Option JSString :=
  (attributes.find? (fun a => a.1 = name)).map (·.2)

/-- Embeds `element.setAttribute(name, value)`. -/
def setAttribute : List (JSString × JSString) → JSString → JSString → List (JSString × JSString)
  | [], name, value => [(name, value)]
  | (n, v) :: rest, name, value =>
    if n = name then (n, value) :: rest else (n, v) :: setAttribute rest name value

/-- Embeds `element.removeAttribute(name)`. -/
def removeAttribute (attributes : List (JSString × JSString)) (name : JSString) :
    List (JSString × JSString) :=
  attributes.filter (fun a => a.1 ≠ name)

/-- The mutable fields of `UBlockContentScript`, together with the document it acts on. -/
structure ContentScript (Element : Type) where
  integration : Engine
  cosmeticFilters : List Filter
  blockedElements : List Element
  page : Page Element

/-- The argument of `blockElement` and `unblockElement`: a selector string or an element. -/
inductive Target (Element : Type)
  | selector (s : JSString)
  | element (e : Element)

/-- Embeds `matchesAttributeSelector(element, selector)`. -/
def matchesAttributeSelector {Element : Type} (dom : Dom Element) (page : Page Element)
    (element : Element) (selector : JSString) : Bool :=
  match dom.attributeSelectorMatch selector with
  | none => false
  | some (attrName, attrValue) =>
    match attrValue with
    | some value =>
      if !value.isEmpty then getAttribute (page element).attributes attrName == some value
      else (getAttribute (page element).attributes attrName).isSome
    | none => (getAttribute (page element).attributes attrName).isSome

/-- The `while` loop of `matchesParentChild` over the ancestors; `none` when `matches`
throws. -/
def anyAncestorMatches {Element : Type} (dom : Dom Element) (page : Page Element)
    (parentSelector : JSString) : List Element → Option Bool
  | [] => some false
  | parent :: parents =>
    match dom.elementMatches page parent parentSelector with
    | none => none
    | some true => some true
    | some false => anyAncestorMatches dom page parentSelector parents

/-- Embeds `matchesParentChild(element, parentSelector, childSelector)`; `none` when
`matches` throws. -/
def matchesParentChild {Element : Type} (dom : Dom Element) (page : Page Element)
    (element : Element) (parentSelector childSelector : JSString) : Option Bool :=
  match dom.elementMatches page element childSelector with
  | none => none
  | some false => some false
  | some true => anyAncestorMatches dom page parentSelector (dom.ancestors element)

/-- Embeds `matchesSingleSelector(element, selector)`; an exception and the value
`undefined` both count as false. -/
def matchesSingleSelector {Element : Type} (dom : Dom Element) (page : Page Element)
    (element : Element) (selector : JSString) : Bool :=
  if JS.includes selector ['#', '#'] then
    let pieces := JS.splitOn ['#', '#'] selector
    let parent := pieces.headD []
    let child := pieces.tail.headD []
    if !parent.isEmpty && !child.isEmpty then
      (matchesParentChild dom page element parent child).getD false
    else false
  else if JS.includes selector ['['] && JS.includes selector [']'] then
    matchesAttributeSelector dom page element selector
  else (dom.elementMatches page element selector).getD false

/-- Embeds `matchesSelector(element, selector)`. -/
def matchesSelector {Element : Type} (dom : Dom Element) (page : Page Element)
    (element : Element) (selector : JSString) : Bool :=
  if JS.includes selector [','] then
    (JS.split ',' selector).any (fun sel => matchesSingleSelector dom page element (JS.trim sel))
  else matchesSingleSelector dom page element selector

/-- Embeds `matchesCosmeticFilter(element, filter)`. -/
def matchesCosmeticFilter {Element : Type} (dom : Dom Element) (page : Page Element)
    (element : Element) (filter : Filter) : Bool :=
  if filter.type ≠ .cosmetic then false
  else if JS.startsWith filter.pattern ['#', '#'] then
    matchesSelector dom page element (JS.substringFrom filter.pattern 2)
  else if JS.startsWith filter.pattern ['#', '@', '#'] then
    matchesSelector dom page element (JS.substringFrom filter.pattern 3)
  else false

/-- The element that `blockElement` and `unblockElement` act on. -/
def resolveTarget {Element : Type} (dom : Dom Element) (page : Page Element) :
    Target Element → Option Element
  | .selector s => dom.querySelector page s
  | .element e => some e

/-- Embeds `blockElement(elementOrSelector)`. -/
def blockElement {Element : Type} [DecidableEq Element] (dom : Dom Element)
    (cs : ContentScript Element) (target : Target Element) : ContentScript Element :=
  match resolveTarget dom cs.page target with
  | none => cs
  | some element =>
    let old := cs.page element
    let hidden : ElementState :=
      { display := setStyle dom "display".toList old.display "none !important".toList,
        visibility := setStyle dom "visibility".toList old.visibility "hidden !important".toList,
        opacity := setStyle dom "opacity".toList old.opacity "0 !important".toList,
        height := setStyle dom "height".toList old.height "0 !important".toList,
        width := setStyle dom "width".toList old.width "0 !important".toList,
        overflow := setStyle dom "overflow".toList old.overflow "hidden !important".toList,
        attributes := setAttribute old.attributes "data-ublock-blocked".toList "true".toList }
    { cs with
      page := Function.update cs.page element hidden,
      blockedElements :=
        if element ∈ cs.blockedElements then cs.blockedElements
        else cs.blockedElements ++ [element] }

/-- Embeds `unblockElement(elementOrSelector)`. -/
def unblockElement {Element : Type} [DecidableEq Element] (dom : Dom Element)
    (cs : ContentScript Element) (target : Target Element) : ContentScript Element :=
  match resolveTarget dom cs.page target with
  | none => cs
  | some element =>
    let old := cs.page element
    let restored : ElementState :=
      { display := setStyle dom "display".toList old.display [],
        visibility := setStyle dom "visibility".toList old.visibility [],
        opacity := setStyle dom "opacity".toList old.opacity [],
        height := setStyle dom "height".toList old.height [],
        width := setStyle dom "width".toList old.width [],
        overflow := setStyle dom "overflow".toList old.overflow [],
        attributes := removeAttribute old.attributes "data-ublock-blocked".toList }
    { cs with
      page := Function.update cs.page element restored,
      blockedElements := cs.blockedElements.filter (· ≠ element) }

/-- Embeds `blockElementByFilter(element, filter)`. -/
def blockElementByFilter {Element : Type} [DecidableEq Element] (dom : Dom Element)
    (cs : ContentScript Element) (element : Element) (filter : Filter) : ContentScript Element :=
  if JS.startsWith filter.pattern ['#', '@', '#'] then cs
  else blockElement dom cs (.element element)

/-- Embeds `checkElementForBlocking(element)`: the first matching filter decides. -/
def checkElementForBlocking {Element : Type} [DecidableEq Element] (dom : Dom Element)
    (cs : ContentScript Element) (element : Element) : ContentScript Element :=
  match cs.cosmeticFilters.find? (fun filter => matchesCosmeticFilter dom cs.page element filter)
    with
  | some filter => blockElementByFilter dom cs element filter
  | none => cs

/-- Embeds `checkExistingElements()`. -/
def checkExistingElements {Element : Type} [DecidableEq Element] (dom : Dom Element)
    (cs : ContentScript Element) : ContentScript Element :=
  dom.allElements.foldl (checkElementForBlocking dom) cs

/-- Embeds `applyCosmeticFilters()`. -/
def applyCosmeticFilters {Element : Type} [DecidableEq Element] (dom : Dom Element)
    (cs : ContentScript Element) : ContentScript Element :=
  checkExistingElements dom
    { cs with
      cosmeticFilters :=
        cs.integration.filterLists.flatMap (fun l => l.2.filter (fun f => f.type = .cosmetic)) }

/-- A document of elements numbered by naturals, none of which has an inline style or an
attribute. -/
def samplePage : Page Nat := fun _ =>
  { display := [], visibility := [], opacity := [], height := [], width := [], overflow := [],
    attributes := [] }

/-- A platform with the single element `0`, which satisfies exactly the selectors in
`satisfied`; `accepts` tells whether the style setter takes the values it is given. -/
def sampleDom (satisfied : List String) (accepts : Bool) : Dom Nat :=
  { elementMatches := fun _ e selector =>
      some (decide (e = 0) && (satisfied.map String.toList).contains selector),
    ancestors := fun _ => [],
    querySelector := fun _ selector =>
      if (satisfied.map String.toList).contains selector then some 0 else none,
    allElements := [0],
    attributeSelectorMatch := fun _ => none,
    styleAccepts := fun _ _ => accepts }

/-- A content script whose engine holds one list parsed from `lines`, on a page. -/
def sampleContentScript (lines : List String) (page : Page Nat) : ContentScript Nat :=
  { integration := sampleEngine lines [], cosmeticFilters := [], blockedElements := [],
    page := page }

/-- The sequence `blockElement(e)` then `unblockElement(e)` on an element. -/
def blockThenUnblock {Element : Type} [DecidableEq Element] (dom : Dom Element)
    (cs : ContentScript Element) (e : Element) : ContentScript Element :=
  unblockElement dom (blockElement dom cs (.element e)) (.element e)

/-- The sample page with the inline style `display: block` and the attribute
`data-ublock-blocked="manual"` on every element. -/
def styledPage : Page Nat := fun _ =>
  { display := "block".toList, visibility := [], opacity := [], height := [], width := [],
    overflow := [],
    attributes := [("data-ublock-blocked".toList, "manual".toList)] }

/-! ## Lemmas on the string primitives -/

theorem JS.startsWith_iff (s p : JSString) : JS.startsWith s p = true ↔ p <+: s := by
  simp [JS.startsWith]

theorem JS.endsWith_iff (s p : JSString) : JS.endsWith s p = true ↔ p <:+ s := by
  simp [JS.endsWith]

theorem JS.includes_iff (s p : JSString) : JS.includes s p = true ↔ p <:+: s := by
  induction s with
  | nil => simp [JS.includes]
  | cons c cs ih =>
    rw [JS.includes, Bool.or_eq_true, ih, List.infix_cons_iff]
    simp

theorem JS.includes_singleton (s : JSString) (c : Char) :
    JS.includes s [c] = true ↔ c ∈ s := by
  rw [JS.includes_iff]
  constructor
  · rintro ⟨a, b, h⟩
    rw [← h]
    simp
  · intro h
    obtain ⟨a, b, h⟩ := List.append_of_mem h
    exact ⟨a, b, by simp [h]⟩

/-! ## Classification (`parseFilter`) -/

theorem determineType_eq_documentedKind (rest : JSString) :
    determineType rest = documentedKind rest := by
  unfold determineType documentedKind
  simp only [Bool.or_eq_true, JS.includes_iff, JS.startsWith_iff, JS.endsWith_iff,
    ← JS.includes_singleton]
  rfl

theorem parseFilter_type (line : JSString) :
    (parseFilter line).type = determineType (afterExceptionMarker line) := by
  unfold parseFilter afterExceptionMarker
  by_cases h : JS.startsWith line ['@', '@'] = true
  · have h' : "@@".toList <+: line := (JS.startsWith_iff _ _).1 h
    simp only [h, if_true]
    rw [if_pos h']
    rfl
  · have h' : ¬ ("@@".toList <+: line) := fun hp => h ((JS.startsWith_iff _ _).2 hp)
    simp only [h]
    rw [if_neg h']
    rfl

/-- C1: the kind that `parseFilter` assigns is the documented precedence applied to the line
without its leading `@@`: cosmetic, then cosmetic exception, then domain anchor, then start
anchor, then end anchor, then wildcard or separator, else plain. In particular a line that
starts with `||` and also contains `*` (and no hiding marker) is `network_domain`. -/
theorem parseFilter_kind_precedence (line : JSString) :
    (parseFilter line).type = documentedKind (afterExceptionMarker line) ∧
    ("||".toList <+: afterExceptionMarker line → '*' ∈ afterExceptionMarker line →
      ¬ "##".toList <:+: afterExceptionMarker line →
      ¬ "#@#".toList <:+: afterExceptionMarker line →
      (parseFilter line).type = .network_domain) := by
  have h := (parseFilter_type line).trans (determineType_eq_documentedKind _)
  refine ⟨h, fun h1 _ h3 h4 => ?_⟩
  rw [h, documentedKind, if_neg h3, if_neg h4, if_pos h1]

theorem parseFilter_kind_precedence_witness :
    (parseFilter "@@||ads.example.com/*/banner".toList).type = .network_domain :=
  (parseFilter_kind_precedence "@@||ads.example.com/*/banner".toList).2 (by decide) (by decide)
    (fun h => absurd ((JS.includes_iff _ _).2 h) (by decide))
    (fun h => absurd ((JS.includes_iff _ _).2 h) (by decide))

/-! ## Request matching (`shouldBlockRequest`) -/

theorem scanLists_eq_scanFilters (u h d : JSString) (lists : List (JSString × List Filter)) :
    scanLists u h d lists = scanFilters u h d (lists.flatMap (·.2)) := by
  have happ : ∀ xs ys : List Filter, scanFilters u h d (xs ++ ys) =
      match scanFilters u h d xs with
      | some verdict => some verdict
      | none => scanFilters u h d ys := by
    intro xs ys
    induction xs with
    | nil => rfl
    | cons x xs ih =>
      simp only [List.cons_append, scanFilters]
      split
      · split <;> rfl
      · exact ih
  induction lists with
  | nil => rfl
  | cons l lists ih =>
    obtain ⟨name, filters⟩ := l
    rw [scanLists, List.flatMap_cons, happ, ih]

theorem scanFilters_eq_some_true (u h d : JSString) (fs : List Filter) :
    scanFilters u h d fs = some true ↔
      ∃ pre f post, fs = pre ++ f :: post ∧ (∀ g ∈ pre, matchesFilter u h d g = false) ∧
        matchesFilter u h d f = true ∧ f.exception = false := by
  induction fs with
  | nil => simp [scanFilters]
  | cons x xs ih =>
    by_cases hx : matchesFilter u h d x = true
    · rw [scanFilters, if_pos hx]
      constructor
      · intro hv
        refine ⟨[], x, xs, rfl, by simp, hx, ?_⟩
        cases hex : x.exception
        · rfl
        · rw [hex] at hv
          simp at hv
      · rintro ⟨pre, f, post, heq, hpre, _, hfe⟩
        cases pre with
        | nil =>
          simp only [List.nil_append, List.cons.injEq] at heq
          rw [heq.1, hfe]
          rfl
        | cons y pre =>
          simp only [List.cons_append, List.cons.injEq] at heq
          have := hpre y (by simp)
          rw [← heq.1, hx] at this
          cases this
    · rw [scanFilters, if_neg hx, ih]
      constructor
      · rintro ⟨pre, f, post, heq, hpre, hf, hfe⟩
        refine ⟨x :: pre, f, post, by rw [heq]; rfl, ?_, hf, hfe⟩
        intro g hg
        rcases List.mem_cons.1 hg with rfl | hg
        · simpa using hx
        · exact hpre g hg
      · rintro ⟨pre, f, post, heq, hpre, hf, hfe⟩
        cases pre with
        | nil =>
          simp only [List.nil_append, List.cons.injEq] at heq
          rw [heq.1] at hx
          exact absurd hf hx
        | cons y pre =>
          simp only [List.cons_append, List.cons.injEq] at heq
          exact ⟨pre, f, post, heq.2, fun g hg => hpre g (List.mem_cons_of_mem _ hg), hf, hfe⟩

theorem scanFilters_eq_none (u h d : JSString) (fs : List Filter) :
    scanFilters u h d fs = none ↔ ∀ g ∈ fs, matchesFilter u h d g = false := by
  induction fs with
  | nil => simp [scanFilters]
  | cons x xs ih =>
    by_cases hx : matchesFilter u h d x = true
    · rw [scanFilters, if_pos hx]
      constructor
      · intro hv
        split at hv <;> cases hv
      · intro hall
        have := hall x (by simp)
        rw [hx] at this
        cases this
    · rw [scanFilters, if_neg hx, ih]
      simp only [List.mem_cons, forall_eq_or_imp]
      constructor
      · intro hall
        exact ⟨by simpa using hx, hall⟩
      · exact fun hall => hall.2

theorem shouldBlockRequest_eq_scan (H : Host) (e : Engine) (request : Request)
    (hinit : e.initialized = true) (hwl : requestWhitelisted H e request = false) :
    (shouldBlockRequest H e request).1 =
      (scanFilters request.url (requestHostname H request)
        (extractDomain (requestHostname H request)) e.rules == some true) := by
  unfold requestWhitelisted requestHostname at hwl
  unfold shouldBlockRequest requestHostname Engine.rules
  simp only [hinit, Bool.not_true, hwl, ← scanLists_eq_scanFilters]
  generalize scanLists request.url (extractHostname H request.url)
    (extractDomain (extractHostname H request.url)) e.filterLists = r
  rcases r with _ | _ | _ <;> rfl

/-- C2: for an initialised engine and a request whose hostname is not whitelisted,
`shouldBlockRequest` returns true exactly when some rule of the loaded lists matches and the
first matching rule, in list-load order and then rule order, is not an exception; when no
rule matches it returns false. -/
theorem shouldBlockRequest_first_match (H : Host) (e : Engine) (request : Request)
    (hinit : e.initialized = true) (hwl : requestWhitelisted H e request = false) :
    ((shouldBlockRequest H e request).1 = true ↔
      ∃ pre f post, e.rules = pre ++ f :: post ∧
        (∀ g ∈ pre, ruleMatches H request g = false) ∧
        ruleMatches H request f = true ∧ f.exception = false) ∧
    ((∀ g ∈ e.rules, ruleMatches H request g = false) →
      (shouldBlockRequest H e request).1 = false) := by
  rw [shouldBlockRequest_eq_scan H e request hinit hwl]
  unfold ruleMatches
  constructor
  · rw [← scanFilters_eq_some_true]
    simp
  · intro hall
    rw [(scanFilters_eq_none _ _ _ _).2 hall]
    rfl

theorem shouldBlockRequest_first_match_witness :
    (shouldBlockRequest (sampleHost "ads.example.com")
        (sampleEngine ["/banner/*", "@@||cdn.example.com^", "||ads.example.com^"] [])
        (sampleRequest "https://ads.example.com/x.js")).1 = true :=
  (shouldBlockRequest_first_match (sampleHost "ads.example.com")
      (sampleEngine ["/banner/*", "@@||cdn.example.com^", "||ads.example.com^"] [])
      (sampleRequest "https://ads.example.com/x.js") (by decide) (by decide)).1.2
    ⟨[parseFilter "/banner/*".toList, parseFilter "@@||cdn.example.com^".toList],
      parseFilter "||ads.example.com^".toList, [], by decide, by decide, by decide, by decide⟩

theorem isWhitelisted_of_entry (whitelist : List JSString) (url hostname domain w : JSString)
    (hw : w ∈ whitelist) (hh : hostname = w ∨ ('.' :: w) <:+ hostname) :
    isWhitelisted whitelist url hostname domain = true := by
  unfold isWhitelisted
  split
  · rfl
  · rename_i hc
    rcases hh with rfl | hsuf
    · exact absurd (by simp [hw]) hc
    · rw [List.any_eq_true]
      exact ⟨w, hw, (JS.endsWith_iff _ _).2 hsuf⟩

/-- C3: whitelist precedence. When the hostname of the request URL equals a whitelist entry
or ends with a dot followed by one, `shouldBlockRequest` returns false, whatever rules the
loaded lists hold. -/
theorem whitelist_precedence (H : Host) (e : Engine) (request : Request) (w : JSString)
    (hw : w ∈ e.whitelistDomains)
    (hh : requestHostname H request = w ∨ ('.' :: w) <:+ requestHostname H request) :
    (shouldBlockRequest H e request).1 = false := by
  unfold shouldBlockRequest
  split
  · rfl
  · have := isWhitelisted_of_entry e.whitelistDomains request.url _
      (extractDomain (extractHostname H request.url)) w hw hh
    unfold requestHostname at this
    simp only [this, if_true]

theorem whitelist_precedence_witness :
    ruleMatches (sampleHost "sub.ads.example.com") (sampleRequest "https://sub.ads.example.com/x")
        (parseFilter "||ads.example.com^".toList) = true ∧
    (parseFilter "||ads.example.com^".toList).exception = false ∧
    (shouldBlockRequest (sampleHost "sub.ads.example.com")
        (sampleEngine ["||ads.example.com^"] ["example.com"])
        (sampleRequest "https://sub.ads.example.com/x")).1 = false :=
  ⟨by decide, by decide,
    whitelist_precedence (sampleHost "sub.ads.example.com")
      (sampleEngine ["||ads.example.com^"] ["example.com"])
      (sampleRequest "https://sub.ads.example.com/x") "example.com".toList (by decide)
      (Or.inr (by decide))⟩

/-- C4: a blocking rule placed before an exception rule wins. With the list
`||ads.example.com^`, `@@||ads.example.com^` both rules match the request, the host is not
whitelisted, and `shouldBlockRequest` returns true; with the two lines swapped it returns
false. -/
theorem block_before_exception_blocks :
    ruleMatches (sampleHost "ads.example.com") (sampleRequest "https://ads.example.com/x")
        (parseFilter "||ads.example.com^".toList) = true ∧
    ruleMatches (sampleHost "ads.example.com") (sampleRequest "https://ads.example.com/x")
        (parseFilter "@@||ads.example.com^".toList) = true ∧
    (parseFilter "@@||ads.example.com^".toList).exception = true ∧
    requestWhitelisted (sampleHost "ads.example.com")
        (sampleEngine ["||ads.example.com^", "@@||ads.example.com^"] [])
        (sampleRequest "https://ads.example.com/x") = false ∧
    (shouldBlockRequest (sampleHost "ads.example.com")
        (sampleEngine ["||ads.example.com^", "@@||ads.example.com^"] [])
        (sampleRequest "https://ads.example.com/x")).1 = true ∧
    (shouldBlockRequest (sampleHost "ads.example.com")
        (sampleEngine ["@@||ads.example.com^", "||ads.example.com^"] [])
        (sampleRequest "https://ads.example.com/x")).1 = false := by
  decide

/-! ## Per-kind matching -/

theorem substring_domain_anchor (D : JSString) :
    JS.substring ('|' :: '|' :: (D ++ ['^'])) 2 (('|' :: '|' :: (D ++ ['^'])).length - 1) = D := by
  have h1 : min 2 (D.length + 1 + 1 + 1) = 2 := by omega
  have h2 : min (D.length + 1 + 1 + 1 - 1) (D.length + 1 + 1 + 1) = D.length + 2 := by omega
  have h3 : min 2 (D.length + 2) = 2 := by omega
  have h4 : max 2 (D.length + 2) - 2 = D.length := by omega
  simp only [JS.substring, List.length_cons, List.length_append, List.length_nil, Nat.zero_add,
    h1, h2, h3, h4, List.drop_succ_cons, List.drop_zero, List.take_left']

/-- C5: domain-anchor matching. The `network_domain` filter with pattern `||D^` matches a
request with hostname `h` exactly when `h` equals `D` or ends with a dot followed by `D`; so
`||ads.example.com^` matches the hostnames `ads.example.com` and `sub.ads.example.com` and
does not match `notads.example.com`. -/
theorem domain_anchor_matching (D h url domain raw : JSString) (options : Options)
    (exception : Bool) :
    (matchesFilter url h domain
        { raw := raw, type := .network_domain, pattern := '|' :: '|' :: (D ++ ['^']),
          options := options, exception := exception } = true ↔
      (h = D ∨ ('.' :: D) <:+ h)) ∧
    matchesFilter url "ads.example.com".toList domain
      (parseFilter "||ads.example.com^".toList) = true ∧
    matchesFilter url "sub.ads.example.com".toList domain
      (parseFilter "||ads.example.com^".toList) = true ∧
    matchesFilter url "notads.example.com".toList domain
      (parseFilter "||ads.example.com^".toList) = false := by
  refine ⟨?_, rfl, rfl, rfl⟩
  have hs : JS.startsWith ('|' :: '|' :: (D ++ ['^'])) ['|', '|'] = true := by
    simp [JS.startsWith]
  have he : JS.endsWith ('|' :: '|' :: (D ++ ['^'])) ['^'] = true := by
    rw [JS.endsWith_iff]
    exact ⟨'|' :: '|' :: D, rfl⟩
  simp only [matchesFilter, matchesDomainPattern, hs, he, Bool.not_true, Bool.or_self,
    Bool.false_eq_true, if_false, substring_domain_anchor, Bool.or_eq_true, decide_eq_true_eq,
    JS.endsWith_iff]

/-- C6: the two documented wildcard examples do not match. The expression built for
`/ads/*/banner` is `/ads/\.*/banner`, where the star repeats a literal dot, and the one built
for `ads^` is `ads\[^a-zA-Z0-9._-]`, a literal bracket followed by a start-of-input
assertion; `matchesPattern` returns false for both documented URLs. -/
theorem matchesPattern_documented_examples :
    regexSource "/ads/*/banner".toList = "/ads/\\.*/banner".toList ∧
    matchesPattern "http://x.com/ads/foo/banner".toList "/ads/*/banner".toList = false ∧
    regexSource "ads^".toList = "ads\\[^a-zA-Z0-9._-]".toList ∧
    matchesPattern "http://x.com/ads?id=1".toList "ads^".toList = false := by
  decide

/-- C7: a custom filter is stored and never consulted. In an initialised engine with no list
rule and an empty whitelist, the text `/ads/` parses to a non-exception `network_plain` rule
that matches the request, and after `addCustomFilter` the filter is in `customFilters`, yet
`shouldBlockRequest` still returns false. -/
theorem custom_filter_not_consulted :
    (parseFilter "/ads/".toList).type = .network_plain ∧
    (parseFilter "/ads/".toList).exception = false ∧
    ruleMatches (sampleHost "x.com") (sampleRequest "http://x.com/ads/banner.js")
      (parseFilter "/ads/".toList) = true ∧
    requestWhitelisted (sampleHost "x.com") (sampleEngine [] [])
      (sampleRequest "http://x.com/ads/banner.js") = false ∧
    (addCustomFilter (sampleEngine [] []) "/ads/".toList).customFilters =
      [parseFilter "/ads/".toList] ∧
    (shouldBlockRequest (sampleHost "x.com")
      (addCustomFilter (sampleEngine [] []) "/ads/".toList)
      (sampleRequest "http://x.com/ads/banner.js")).1 = false := by
  decide


/-! ## Compilation (`generateDeclarativeRules`) -/

theorem convertFilterToRule_spec (c : Nat) (f : Filter) :
    (convertFilterToRule c f).2 = c + 1 ∧
    (∀ r, (convertFilterToRule c f).1 = some r → r.id = c) ∧
    (f.options.get "domain".toList ≠ some .flag → ∃ r, (convertFilterToRule c f).1 = some r) := by
  unfold convertFilterToRule
  rcases hd : f.options.get "domain".toList with _ | _ | v
  · simp [truthy]
  · simp [truthy, parseDomains]
  · by_cases hv : v.isEmpty = true
    · simp [truthy, hv]
    · simp only [truthy, hv, parseDomains, Option.bind]
      simp

theorem generateFromList_cons (f : Filter) (fs : List Filter) (rules : List Rule) (c : Nat) :
    generateFromList (f :: fs) (rules, c) =
      if isEligible f = true then
        match (convertFilterToRule c f).1 with
        | some rule =>
          if (rules ++ [rule]).length ≥ 5000 then (rules ++ [rule], c + 1)
          else generateFromList fs (rules ++ [rule], c + 1)
        | none => generateFromList fs (rules, c + 1)
      else generateFromList fs (rules, c) := by
  have h2 := (convertFilterToRule_spec c f).1
  rw [generateFromList]
  unfold isEligible
  split
  · rcases hc : convertFilterToRule c f with ⟨_ | r, c'⟩
    · rw [hc] at h2
      simp only at h2
      simp [h2]
    · rw [hc] at h2
      simp only at h2
      simp [h2]
  · rfl

theorem FreshFrom.nil (c : Nat) : FreshFrom c [] c :=
  ⟨Nat.le_refl c, by simp, by simp⟩

theorem FreshFrom.cons {c c' : Nat} {r : Rule} {new : List Rule} (hr : r.id = c)
    (h : FreshFrom (c + 1) new c') : FreshFrom c (r :: new) c' := by
  obtain ⟨hle, hpw, hin⟩ := h
  refine ⟨by omega, ?_, ?_⟩
  · simp only [List.map_cons, List.pairwise_cons, List.mem_map, forall_exists_index, and_imp,
      forall_apply_eq_imp_iff₂]
    exact ⟨fun a ha => by have := (hin a ha).1; omega, hpw⟩
  · intro a ha
    rcases List.mem_cons.1 ha with rfl | ha
    · omega
    · have := hin a ha
      omega

theorem FreshFrom.skip {c c' : Nat} {new : List Rule} (h : FreshFrom (c + 1) new c') :
    FreshFrom c new c' := by
  obtain ⟨hle, hpw, hin⟩ := h
  exact ⟨by omega, hpw, fun a ha => by have := hin a ha; omega⟩

theorem FreshFrom.append {a b c : Nat} {xs ys : List Rule} (hx : FreshFrom a xs b)
    (hy : FreshFrom b ys c) : FreshFrom a (xs ++ ys) c := by
  obtain ⟨hab, hpx, hix⟩ := hx
  obtain ⟨hbc, hpy, hiy⟩ := hy
  refine ⟨by omega, ?_, ?_⟩
  · rw [List.map_append, List.pairwise_append]
    refine ⟨hpx, hpy, ?_⟩
    simp only [List.mem_map, forall_exists_index, and_imp, forall_apply_eq_imp_iff₂]
    intro x hxm y hym
    have := hix x hxm
    have := hiy y hym
    omega
  · intro r hr
    rcases List.mem_append.1 hr with hr | hr
    · have := hix r hr
      omega
    · have := hiy r hr
      omega

theorem generateFromList_fresh (fs : List Filter) :
    ∀ (rules : List Rule) (c : Nat), ∃ new,
      (generateFromList fs (rules, c)).1 = rules ++ new ∧
      FreshFrom c new (generateFromList fs (rules, c)).2 := by
  induction fs with
  | nil => exact fun rules c => ⟨[], by simp [generateFromList], FreshFrom.nil c⟩
  | cons f fs ih =>
    intro rules c
    rw [generateFromList_cons]
    split
    · rcases hc : (convertFilterToRule c f).1 with _ | r
      · obtain ⟨new, h1, h2⟩ := ih rules (c + 1)
        exact ⟨new, h1, h2.skip⟩
      · have hid := (convertFilterToRule_spec c f).2.1 r hc
        simp only
        split
        · exact ⟨[r], rfl, FreshFrom.cons hid (FreshFrom.nil _)⟩
        · obtain ⟨new, h1, h2⟩ := ih (rules ++ [r]) (c + 1)
          exact ⟨r :: new, by rw [h1]; simp, FreshFrom.cons hid h2⟩
    · exact ih rules c

theorem generateFromLists_fresh (lists : List (JSString × List Filter)) :
    ∀ (rules : List Rule) (c : Nat), ∃ new,
      (generateFromLists lists (rules, c)).1 = rules ++ new ∧
      FreshFrom c new (generateFromLists lists (rules, c)).2 := by
  induction lists with
  | nil => exact fun rules c => ⟨[], by simp [generateFromLists], FreshFrom.nil c⟩
  | cons l lists ih =>
    intro rules c
    obtain ⟨name, fs⟩ := l
    rw [generateFromLists]
    obtain ⟨new1, h1, f1⟩ := generateFromList_fresh fs rules c
    obtain ⟨new2, h2, f2⟩ := ih (generateFromList fs (rules, c)).1 (generateFromList fs (rules, c)).2
    refine ⟨new1 ++ new2, ?_, f1.append f2⟩
    rw [h2, h1, List.append_assoc]

theorem compileWith_fresh (w : Worker) (lists : List (JSString × List Filter)) :
    FreshFrom w.ruleIdCounter (compileWith w lists).declarativeRules
      (compileWith w lists).ruleIdCounter := by
  obtain ⟨new, h1, h2⟩ := generateFromLists_fresh lists [] w.ruleIdCounter
  unfold compileWith initializeDeclarativeRules generateDeclarativeRules
  simp only [h1, List.nil_append]
  simpa [h1] using h2

theorem compilations_fresh (catalogs : List (List (JSString × List Filter))) :
    ∀ w : Worker, ∃ c', FreshFrom w.ruleIdCounter (compilations w catalogs).flatten c' := by
  induction catalogs with
  | nil => exact fun w => ⟨w.ruleIdCounter, by simpa [compilations] using FreshFrom.nil _⟩
  | cons lists later ih =>
    intro w
    obtain ⟨c', h⟩ := ih (compileWith w lists)
    refine ⟨c', ?_⟩
    rw [compilations, List.flatten_cons]
    exact (compileWith_fresh w lists).append h

/-- C10: ids are never reused. Over any sequence of compilations of one worker, whatever the
catalog is at each compilation, the ids of all produced rules increase strictly in
production order, so they are pairwise distinct, and every id of a later compilation is
greater than every id of an earlier one. -/
theorem rule_ids_never_reused (w : Worker) (catalogs : List (List (JSString × List Filter))) :
    (((compilations w catalogs).flatten).map (·.id)).Pairwise (· < ·) ∧
    (((compilations w catalogs).flatten).map (·.id)).Nodup ∧
    ∀ (i j : Nat) (earlier later : List Rule), i < j →
      (compilations w catalogs)[i]? = some earlier →
      (compilations w catalogs)[j]? = some later →
      ∀ a ∈ earlier, ∀ b ∈ later, a.id < b.id := by
  obtain ⟨c', _, hpw, _⟩ := compilations_fresh catalogs w
  refine ⟨hpw, ?_, ?_⟩
  · exact hpw.imp (fun h => Nat.ne_of_lt h)
  · intro i j earlier later hij hi hj a ha b hb
    rw [List.pairwise_map, List.pairwise_flatten] at hpw
    have hcross := hpw.2
    rw [List.pairwise_iff_getElem] at hcross
    obtain ⟨hi', rfl⟩ := List.getElem?_eq_some_iff.1 hi
    obtain ⟨hj', rfl⟩ := List.getElem?_eq_some_iff.1 hj
    exact hcross i j hi' hj' hij a ha b hb

theorem rule_ids_never_reused_witness :
    (((compilations Worker.new
        [[("list".toList, [parseFilter "/ads/".toList, parseFilter "ads.js$domain".toList])],
          [("list".toList, [parseFilter "/ads/".toList])]]).flatten).map (·.id)).Pairwise
      (· < ·) :=
  (rule_ids_never_reused Worker.new
    [[("list".toList, [parseFilter "/ads/".toList, parseFilter "ads.js$domain".toList])],
      [("list".toList, [parseFilter "/ads/".toList])]]).1

theorem Consecutive.push {base : Nat} {rules : List Rule} {c : Nat} {r : Rule}
    (h : Consecutive base (rules, c)) (hr : r.id = c) :
    Consecutive base (rules ++ [r], c + 1) := by
  obtain ⟨hc, hk⟩ := h
  simp only at hc hk
  refine ⟨by simp only [List.length_append, List.length_singleton]; omega, ?_⟩
  intro k r' hk'
  simp only at hk'
  by_cases hlt : k < rules.length
  · rw [List.getElem?_append_left hlt] at hk'
    exact hk k r' hk'
  · rw [List.getElem?_append_right (by omega)] at hk'
    have hk0 : k - rules.length = 0 := by
      by_contra hne
      obtain ⟨m, hm⟩ := Nat.exists_eq_succ_of_ne_zero hne
      rw [hm] at hk'
      simp at hk'
    rw [hk0] at hk'
    simp only [List.getElem?_cons_zero, Option.some.injEq] at hk'
    rw [← hk', hr, hc]
    omega

theorem generateFromList_consecutive (base : Nat) (fs : List Filter)
    (hconv : ∀ f ∈ fs, isEligible f = true → f.options.get "domain".toList ≠ some .flag) :
    ∀ (rules : List Rule) (c : Nat), Consecutive base (rules, c) →
      Consecutive base (generateFromList fs (rules, c)) := by
  induction fs with
  | nil => exact fun rules c h => by simpa [generateFromList] using h
  | cons f fs ih =>
    intro rules c h
    have ih' := ih (fun g hg => hconv g (List.mem_cons_of_mem _ hg))
    rw [generateFromList_cons]
    split
    · rename_i hel
      obtain ⟨r, hr⟩ := (convertFilterToRule_spec c f).2.2 (hconv f (by simp) hel)
      have hid := (convertFilterToRule_spec c f).2.1 r hr
      rw [hr]
      simp only
      split
      · exact h.push hid
      · exact ih' _ _ (h.push hid)
    · exact ih' rules c h

theorem generateFromLists_consecutive (base : Nat) (lists : List (JSString × List Filter))
    (hconv : ∀ l ∈ lists, ∀ f ∈ l.2, isEligible f = true →
      f.options.get "domain".toList ≠ some .flag) :
    ∀ state : List Rule × Nat, Consecutive base state →
      Consecutive base (generateFromLists lists state) := by
  induction lists with
  | nil => exact fun state h => by simpa [generateFromLists] using h
  | cons l lists ih =>
    intro state h
    obtain ⟨name, fs⟩ := l
    obtain ⟨rules, c⟩ := state
    rw [generateFromLists]
    exact ih (fun l' hl' => hconv l' (List.mem_cons_of_mem _ hl')) _
      (generateFromList_consecutive base fs (hconv (name, fs) (by simp)) rules c h)

/-- C9 (as the code has it): in a catalog where no eligible filter carries `domain` as a
bare flag, so that every conversion yields a rule, the k-th rule (from 0) produced by one
run of `generateDeclarativeRules` from an empty rule set has id `startId + k`, where
`startId` is the counter before the run. -/
theorem sequential_ids_when_conversions_succeed (w : Worker)
    (hconv : ∀ l ∈ w.integration.filterLists, ∀ f ∈ l.2, isEligible f = true →
      f.options.get "domain".toList ≠ some .flag)
    (k : Nat) (r : Rule)
    (hk : (initializeDeclarativeRules w).declarativeRules[k]? = some r) :
    r.id = w.ruleIdCounter + k := by
  have h := generateFromLists_consecutive w.ruleIdCounter w.integration.filterLists hconv
    ([], w.ruleIdCounter) ⟨by simp, by simp⟩
  exact h.2 k r hk

theorem sequential_ids_when_conversions_succeed_witness :
    (sampleWorker ["||ads.example.com^", "@@||cdn.example.com^", "/banner/*$domain=a.com",
        "##.ad-box", "tracker.js$script"]).ruleIdCounter = 1 ∧
    ((initializeDeclarativeRules (sampleWorker ["||ads.example.com^", "@@||cdn.example.com^",
        "/banner/*$domain=a.com", "##.ad-box", "tracker.js$script"])).declarativeRules[2]?.map
        (·.id)) = some 3 := by
  refine ⟨rfl, ?_⟩
  have hlen : ∃ r, (initializeDeclarativeRules (sampleWorker ["||ads.example.com^",
      "@@||cdn.example.com^", "/banner/*$domain=a.com", "##.ad-box",
      "tracker.js$script"])).declarativeRules[2]? = some r := ⟨_, rfl⟩
  obtain ⟨r, hr⟩ := hlen
  rw [hr, Option.map_some', sequential_ids_when_conversions_succeed _ (by decide) 2 r hr]
  rfl

/-- C9 (counterexample): with the list `ads.js$domain`, `banner.js` and the counter at 1,
the conversion of the first filter fails after taking id 1, so the only rule produced has
id 2 and the rule at position 0 does not have id `1 + 0`. -/
theorem sequential_ids_counterexample :
    (sampleWorker ["ads.js$domain", "banner.js"]).ruleIdCounter = 1 ∧
    ((initializeDeclarativeRules (sampleWorker ["ads.js$domain", "banner.js"])).declarativeRules.map
      (·.id)) = [2] ∧
    ¬ ∀ (k : Nat) (r : Rule),
      (initializeDeclarativeRules
        (sampleWorker ["ads.js$domain", "banner.js"])).declarativeRules[k]? = some r →
      r.id = (sampleWorker ["ads.js$domain", "banner.js"]).ruleIdCounter + k := by
  refine ⟨rfl, by decide, fun h => ?_⟩
  have h0 := h 0 _ rfl
  revert h0
  decide

/-! ### The rule-count cap -/

theorem generateFromList_replicate_length (f : Filter) (hel : isEligible f = true)
    (hconv : f.options.get "domain".toList ≠ some .flag) :
    ∀ (n : Nat) (rules : List Rule) (c : Nat), rules.length + n ≤ 5000 →
      (generateFromList (List.replicate n f) (rules, c)).1.length = rules.length + n := by
  intro n
  induction n with
  | zero => exact fun rules c _ => by simp [generateFromList]
  | succ n ih =>
    intro rules c hle
    obtain ⟨r, hr⟩ := (convertFilterToRule_spec c f).2.2 hconv
    rw [List.replicate_succ, generateFromList_cons, if_pos hel, hr]
    simp only
    split
    · rename_i hge
      simp only [List.length_append, List.length_singleton] at hge ⊢
      omega
    · rw [ih (rules ++ [r]) (c + 1)
        (by simp only [List.length_append, List.length_singleton]; omega)]
      simp only [List.length_append, List.length_singleton]
      omega

theorem generateFromList_singleton_length (f : Filter) (hel : isEligible f = true)
    (hconv : f.options.get "domain".toList ≠ some .flag) (state : List Rule × Nat) :
    (generateFromList [f] state).1.length = state.1.length + 1 := by
  obtain ⟨rules, c⟩ := state
  obtain ⟨r, hr⟩ := (convertFilterToRule_spec c f).2.2 hconv
  rw [generateFromList_cons, if_pos hel, hr]
  simp only
  split <;> simp [generateFromList]

theorem initializeDeclarativeRules_full_then_one (w : Worker) (f g : Filter) (a b : JSString)
    (hlists : w.integration.filterLists = [(a, List.replicate 5000 f), (b, [g])])
    (hf : isEligible f = true) (hfc : f.options.get "domain".toList ≠ some .flag)
    (hg : isEligible g = true) (hgc : g.options.get "domain".toList ≠ some .flag) :
    (initializeDeclarativeRules w).declarativeRules.length = 5001 := by
  unfold initializeDeclarativeRules generateDeclarativeRules
  simp only [hlists]
  rw [generateFromLists, generateFromLists, generateFromLists,
    generateFromList_singleton_length g hg hgc,
    generateFromList_replicate_length f hf hfc 5000 [] _ (Nat.le_refl _)]
  rfl

/-- C8: the cap is overrun when a second list follows. With a first list of 5000 eligible
filters and a second list of one eligible filter, `generateDeclarativeRules` started from an
empty rule set produces 5001 rules: the `break` at 5000 leaves the loop over the first list
only, and each later list still adds its first rule. -/
theorem rule_cap_exceeded_by_second_list :
    (initializeDeclarativeRules
      { Worker.new with
        integration :=
          { Engine.new with
            filterLists :=
              [("first".toList, List.replicate 5000 (parseFilter "/ads/".toList)),
                ("second".toList, [parseFilter "/banner/".toList])] } }).declarativeRules.length
      = 5001 :=
  initializeDeclarativeRules_full_then_one _ (parseFilter "/ads/".toList)
    (parseFilter "/banner/".toList) "first".toList "second".toList rfl (by decide) (by decide)
    (by decide) (by decide)

/-! ## The expression built by `matchesPattern` -/

theorem specials_eq : ".*+?^${}()|[]\\".toList =
    ['.', '*', '+', '?', '^', '$', '{', '}', '(', ')', '|', '[', ']', '\\'] := rfl

theorem regexSource_cons (c : Char) (p : JSString) :
    regexSource (c :: p) = charSource c ++ regexSource p := by
  unfold regexSource escapeSpecial starToDotStar caretToClass charSource
  rw [List.flatMap_cons, List.flatMap_append, List.flatMap_append]
  congr 1
  by_cases h1 : c = '*'
  · subst h1; rfl
  · by_cases h2 : c = '^'
    · subst h2; rfl
    · rw [if_neg h1, if_neg h2]
      by_cases h3 : c ∈ ".*+?^${}()|[]\\".toList
      · rw [if_pos h3]
        simp [List.flatMap, h1, h2]
      · rw [if_neg h3]
        simp [List.flatMap, h1, h2]

theorem lex_escape (d : Char) (rest : JSString) :
    RegExp.lex ('\\' :: d :: rest) =
      if isSyntaxCharacter d then (RegExp.lex rest).map (Tok.atom (.char d) :: ·) else none :=
  rfl

theorem lex_plain (c : Char) (rest : JSString) (h : c ≠ '\\') :
    RegExp.lex (c :: rest) =
      if c = '.' then (RegExp.lex rest).map (Tok.atom .dot :: ·)
      else if c = '^' then (RegExp.lex rest).map (Tok.caret :: ·)
      else if c = '*' then (RegExp.lex rest).map (Tok.star :: ·)
      else if c ∈ "$+?()[{}|".toList then none
      else (RegExp.lex rest).map (Tok.atom (.char c) :: ·) := by
  rw [RegExp.lex.eq_def]
  simp only [h, if_false]

theorem lex_charSource (c : Char) (rest : JSString) :
    RegExp.lex (charSource c ++ rest) = (RegExp.lex rest).map (charToks c ++ ·) := by
  have hlit : ∀ (d : Char) (tail : JSString), d ≠ '\\' → d ≠ '.' → d ≠ '^' → d ≠ '*' →
      d ∉ "$+?()[{}|".toList →
      RegExp.lex (d :: tail) = (RegExp.lex tail).map (Tok.atom (.char d) :: ·) := by
    intro d tail h1 h2 h3 h4 h5
    rw [lex_plain d tail h1, if_neg h2, if_neg h3, if_neg h4, if_neg h5]
  have hesc : ∀ (d : Char) (tail : JSString), isSyntaxCharacter d = true →
      RegExp.lex ('\\' :: d :: tail) = (RegExp.lex tail).map (Tok.atom (.char d) :: ·) := by
    intro d tail h
    rw [lex_escape, if_pos h]
  unfold charSource charToks
  by_cases h1 : c = '*'
  · subst h1
    show RegExp.lex ('\\' :: '.' :: '*' :: rest) = _
    rw [hesc _ _ (by decide), lex_plain _ _ (by decide)]
    cases RegExp.lex rest <;> rfl
  · by_cases h2 : c = '^'
    · subst h2
      show RegExp.lex ('\\' :: '[' :: '^' :: 'a' :: '-' :: 'z' :: 'A' :: '-' :: 'Z' :: '0' ::
        '-' :: '9' :: '.' :: '_' :: '-' :: ']' :: rest) = _
      rw [hesc _ _ (by decide), lex_plain '^' _ (by decide),
        hlit 'a' _ (by decide) (by decide) (by decide) (by decide) (by decide),
        hlit '-' _ (by decide) (by decide) (by decide) (by decide) (by decide),
        hlit 'z' _ (by decide) (by decide) (by decide) (by decide) (by decide),
        hlit 'A' _ (by decide) (by decide) (by decide) (by decide) (by decide),
        hlit '-' _ (by decide) (by decide) (by decide) (by decide) (by decide),
        hlit 'Z' _ (by decide) (by decide) (by decide) (by decide) (by decide),
        hlit '0' _ (by decide) (by decide) (by decide) (by decide) (by decide),
        hlit '-' _ (by decide) (by decide) (by decide) (by decide) (by decide),
        hlit '9' _ (by decide) (by decide) (by decide) (by decide) (by decide),
        lex_plain '.' _ (by decide),
        hlit '_' _ (by decide) (by decide) (by decide) (by decide) (by decide),
        hlit '-' _ (by decide) (by decide) (by decide) (by decide) (by decide),
        hlit ']' _ (by decide) (by decide) (by decide) (by decide) (by decide)]
      cases RegExp.lex rest <;> rfl
    · rw [if_neg h1, if_neg h2, if_neg h1, if_neg h2]
      by_cases h3 : c ∈ ".*+?^${}()|[]\\".toList
      · rw [if_pos h3]
        refine hesc c rest ?_
        rw [specials_eq] at h3
        simp only [List.mem_cons, List.mem_singleton, List.not_mem_nil, or_false] at h3
        rcases h3 with rfl | rfl | rfl | rfl | rfl | rfl | rfl | rfl | rfl | rfl | rfl | rfl |
          rfl | rfl <;> decide
      · rw [if_neg h3]
        rw [specials_eq] at h3
        simp only [List.mem_cons, List.mem_singleton, List.not_mem_nil, or_false, not_or] at h3
        obtain ⟨hd, -, hp, hq, -, hdo, hlb, hrb, hlp, hrp, hbar, hlk, -, hbs⟩ := h3
        have hmem : c ∉ "$+?()[{}|".toList := by
          have : "$+?()[{}|".toList = ['$', '+', '?', '(', ')', '[', '{', '}', '|'] := rfl
          rw [this]
          simp [hp, hq, hdo, hlb, hrb, hlp, hrp, hbar, hlk]
        exact hlit c rest hbs hd h2 h1 hmem

theorem build_charToks (c : Char) (rest : List Tok) (hrest : beginsWithStar rest = false) :
    RegExp.build (charToks c ++ rest) = (RegExp.build rest).map (charTerms c ++ ·) := by
  have hone : ∀ a : Atom, RegExp.build (.atom a :: rest) =
      (RegExp.build rest).map (Term.one a :: ·) := by
    intro a
    cases rest with
    | nil => rfl
    | cons t ts =>
      cases t with
      | star => simp [beginsWithStar] at hrest
      | atom b => rw [RegExp.build]; intro _ h; cases h
      | caret => rw [RegExp.build]; intro _ h; cases h
  unfold charToks charTerms
  by_cases h1 : c = '*'
  · subst h1
    cases h : RegExp.build rest <;> simp [RegExp.build, h]
  · by_cases h2 : c = '^'
    · subst h2
      cases h : RegExp.build rest <;> simp [RegExp.build, h, hone]
    · rw [if_neg h1, if_neg h2, if_neg h1, if_neg h2]
      exact hone _

theorem beginsWithStar_flatMap_charToks (p : JSString) :
    beginsWithStar (p.flatMap charToks) = false := by
  cases p with
  | nil => rfl
  | cons c p =>
    rw [List.flatMap_cons]
    unfold charToks
    split
    · rfl
    · split <;> rfl

theorem lex_regexSource (p : JSString) :
    RegExp.lex (regexSource p) = some (p.flatMap charToks) := by
  induction p with
  | nil => rfl
  | cons c p ih => rw [regexSource_cons, lex_charSource, ih, List.flatMap_cons]; rfl

theorem build_flatMap_charToks (p : JSString) :
    RegExp.build (p.flatMap charToks) = some (patternTerms p) := by
  induction p with
  | nil => rfl
  | cons c p ih =>
    rw [List.flatMap_cons, build_charToks c _ (beginsWithStar_flatMap_charToks p), ih]
    unfold patternTerms
    rw [List.flatMap_cons]
    rfl

/-- The expression built from any pattern is accepted by the constructor, and it is the
sequence `patternTerms pattern`. -/
theorem regexSource_compiles (pattern : JSString) :
    RegExp.compile (regexSource pattern) = some (patternTerms pattern) := by
  unfold RegExp.compile
  rw [lex_regexSource]
  exact build_flatMap_charToks pattern

theorem matchesPattern_eq_test (url pattern : JSString) :
    matchesPattern url pattern = RegExp.test (patternTerms pattern) url := by
  unfold matchesPattern
  rw [regexSource_compiles]

theorem starLoop_false (accepts : Char → Bool) (k : Bool → JSString → Bool)
    (hk : ∀ b s, k b s = false) : ∀ (s : JSString) (b : Bool), starLoop accepts k b s = false := by
  intro s
  induction s with
  | nil => exact fun b => by rw [starLoop, hk]
  | cons c s ih => exact fun b => by rw [starLoop, hk, ih]; simp

theorem matchTerms_one_bol (a : Atom) (ys : List Term) :
    ∀ (xs : List Term) (b : Bool) (s : JSString),
      matchTerms (xs ++ Term.one a :: Term.bol :: ys) b s = false := by
  intro xs
  induction xs with
  | nil =>
    intro b s
    cases s with
    | nil => rfl
    | cons c s => simp [matchTerms]
  | cons t xs ih =>
    intro b s
    cases t with
    | bol => simp [matchTerms, ih]
    | one a' =>
      cases s with
      | nil => rfl
      | cons c s => simp [matchTerms, ih]
    | star a' =>
      rw [List.cons_append, matchTerms]
      exact starLoop_false _ _ ih s b

theorem patternTerms_of_caret (p : JSString) (h : '^' ∈ p) :
    ∃ xs ys, patternTerms p = xs ++ Term.one (.char '[') :: Term.bol :: ys := by
  obtain ⟨pre, post, rfl⟩ := List.append_of_mem h
  refine ⟨patternTerms pre, ?_⟩
  unfold patternTerms
  rw [List.flatMap_append, List.flatMap_cons]
  exact ⟨_, rfl⟩

/-- A pattern that contains `^` matches no URL: its expression holds a start-of-input
assertion right after a literal `[`. -/
theorem matchesPattern_caret_never_matches (url pattern : JSString) (h : '^' ∈ pattern) :
    matchesPattern url pattern = false := by
  obtain ⟨xs, ys, hp⟩ := patternTerms_of_caret pattern h
  rw [matchesPattern_eq_test, hp]
  unfold RegExp.test
  generalize true = b
  induction url generalizing b with
  | nil => rw [searchFrom, matchTerms_one_bol]
  | cons c s ih => rw [searchFrom, matchTerms_one_bol, ih]; rfl

/-! ## Conversion of one filter (`convertFilterToRule` and its helpers) -/

/-- C14: URL-filter conversion. A pattern `||D^` gives `D` and a pattern `||r` without a
trailing `^` gives `r`; otherwise a pattern `|r` gives `r`; otherwise a pattern `r|` gives
`r`; every other pattern is returned unchanged. -/
theorem convertPatternToUrlFilter_cases :
    (∀ D : JSString, convertPatternToUrlFilter ('|' :: '|' :: (D ++ ['^'])) = D) ∧
    (∀ r : JSString, ¬ ['^'] <:+ r → convertPatternToUrlFilter ('|' :: '|' :: r) = r) ∧
    (∀ r : JSString, ¬ ['|'] <+: r → convertPatternToUrlFilter ('|' :: r) = r) ∧
    (∀ r : JSString, ¬ ['|'] <+: (r ++ ['|']) → convertPatternToUrlFilter (r ++ ['|']) = r) ∧
    (∀ p : JSString, ¬ ['|'] <+: p → ¬ ['|'] <:+ p → convertPatternToUrlFilter p = p) := by
  have hpp : ∀ r : JSString, JS.startsWith ('|' :: '|' :: r) ['|', '|'] = true := by
    intro r
    simp [JS.startsWith]
  refine ⟨?_, ?_, ?_, ?_, ?_⟩
  · intro D
    have he : JS.endsWith (D ++ ['^']) ['^'] = true := (JS.endsWith_iff _ _).2 ⟨D, rfl⟩
    simp [convertPatternToUrlFilter, hpp, JS.substringFrom, dropTrailingCaret, he]
  · intro r hr
    have he : JS.endsWith r ['^'] = false := by
      rw [Bool.eq_false_iff]
      exact fun h => hr ((JS.endsWith_iff _ _).1 h)
    simp [convertPatternToUrlFilter, hpp, JS.substringFrom, dropTrailingCaret, he]
  · intro r hr
    have h2 : JS.startsWith ('|' :: r) ['|', '|'] = false := by
      rw [Bool.eq_false_iff]
      intro h
      apply hr
      have := (JS.startsWith_iff _ _).1 h
      obtain ⟨t, ht⟩ := this
      simp only [List.cons_append, List.cons.injEq, true_and] at ht
      exact ⟨t, by simpa using ht⟩
    have h1 : JS.startsWith ('|' :: r) ['|'] = true := by simp [JS.startsWith]
    simp [convertPatternToUrlFilter, h2, h1, JS.substringFrom]
  · intro r hr
    have h1 : JS.startsWith (r ++ ['|']) ['|'] = false := by
      rw [Bool.eq_false_iff]
      exact fun h => hr ((JS.startsWith_iff _ _).1 h)
    have h2 : JS.startsWith (r ++ ['|']) ['|', '|'] = false := by
      rw [Bool.eq_false_iff]
      intro h
      apply hr
      obtain ⟨t, ht⟩ := (JS.startsWith_iff _ _).1 h
      exact ⟨'|' :: t, by simpa using ht⟩
    have h3 : JS.endsWith (r ++ ['|']) ['|'] = true := (JS.endsWith_iff _ _).2 ⟨r, rfl⟩
    simp [convertPatternToUrlFilter, h1, h2, h3, JS.substring]
  · intro p hs he
    have h1 : JS.startsWith p ['|'] = false := by
      rw [Bool.eq_false_iff]
      exact fun h => hs ((JS.startsWith_iff _ _).1 h)
    have h2 : JS.startsWith p ['|', '|'] = false := by
      rw [Bool.eq_false_iff]
      intro h
      apply hs
      obtain ⟨t, ht⟩ := (JS.startsWith_iff _ _).1 h
      exact ⟨'|' :: t, by simpa using ht⟩
    have h3 : JS.endsWith p ['|'] = false := by
      rw [Bool.eq_false_iff]
      exact fun h => he ((JS.endsWith_iff _ _).1 h)
    simp [convertPatternToUrlFilter, h1, h2, h3]

theorem convertPatternToUrlFilter_cases_witness :
    convertPatternToUrlFilter "||ads.example.com/path".toList = "ads.example.com/path".toList ∧
    convertPatternToUrlFilter "|https://ads.".toList = "https://ads.".toList ∧
    convertPatternToUrlFilter ".swf|".toList = ".swf".toList ∧
    convertPatternToUrlFilter "/banner/*".toList = "/banner/*".toList :=
  ⟨convertPatternToUrlFilter_cases.2.1 "ads.example.com/path".toList (by decide),
    convertPatternToUrlFilter_cases.2.2.1 "https://ads.".toList (by decide),
    convertPatternToUrlFilter_cases.2.2.2.1 ".swf".toList (by decide),
    convertPatternToUrlFilter_cases.2.2.2.2 "/banner/*".toList (by decide) (by decide)⟩

theorem getResourceTypes_eq_find (options : Options) :
    getResourceTypes options =
      match restrictingTypes.find? (namesType options) with
      | some t => [t]
      | none => defaultResourceTypes := by
  unfold getResourceTypes restrictingTypes namesType
  simp only [List.map, List.find?]
  cases truthy (options.get "script".toList) <;>
  cases truthy (options.get "image".toList) <;>
  cases truthy (options.get "stylesheet".toList) <;>
  cases truthy (options.get "font".toList) <;>
  cases truthy (options.get "media".toList) <;>
  cases truthy (options.get "object".toList) <;>
  cases truthy (options.get "xmlhttprequest".toList) <;> rfl

/-- C12 (as the code has it): `getResourceTypes` returns the one-element list of the first
type, in the order script, image, stylesheet, font, media, object, xmlhttprequest, that the
options name as a bare flag or with a non-empty value, and the 13-type default list when
they name none. So it returns `[t]` when exactly one type `t` is named, and also when more
are named and `t` is the first of them. -/
theorem getResourceTypes_first_named (options : Options) :
    (getResourceTypes options =
      match restrictingTypes.find? (namesType options) with
      | some t => [t]
      | none => defaultResourceTypes) ∧
    (∀ t ∈ restrictingTypes, namesType options t = true →
      (∀ t' ∈ restrictingTypes, t' ≠ t → namesType options t' = false) →
      getResourceTypes options = [t]) ∧
    ((∀ t ∈ restrictingTypes, namesType options t = false) →
      getResourceTypes options = defaultResourceTypes) ∧
    defaultResourceTypes.length = 13 := by
  refine ⟨getResourceTypes_eq_find options, ?_, ?_, rfl⟩
  · intro t _ hnamed honly
    rw [getResourceTypes_eq_find]
    rcases hf : restrictingTypes.find? (namesType options) with _ | t0
    · rw [List.find?_eq_none] at hf
      exact absurd hnamed (hf t ‹_›)
    · have h0 := List.find?_some hf
      have hm := List.mem_of_find?_eq_some hf
      by_cases heq : t0 = t
      · rw [heq]
      · rw [honly t0 hm heq] at h0
        cases h0
  · intro hnone
    rw [getResourceTypes_eq_find]
    have : restrictingTypes.find? (namesType options) = none := by
      rw [List.find?_eq_none]
      intro t ht
      simp [hnone t ht]
    rw [this]

theorem getResourceTypes_first_named_witness :
    getResourceTypes (parseFilter "ads.js$image".toList).options = ["image".toList] :=
  (getResourceTypes_first_named (parseFilter "ads.js$image".toList).options).2.1
    "image".toList (by decide) (by decide) (by decide)

/-- C12 (counterexample): the options of `ads.js$script,image` name two of the seven types,
and `getResourceTypes` returns `['script']`, not the default list. -/
theorem getResourceTypes_two_named :
    (parseFilter "ads.js$script,image".toList).options =
      [("script".toList, OptVal.flag), ("image".toList, OptVal.flag)] ∧
    getResourceTypes (parseFilter "ads.js$script,image".toList).options = ["script".toList] ∧
    getResourceTypes (parseFilter "ads.js$script,image".toList).options ≠
      defaultResourceTypes := by
  decide

/-! ## Whitelist updates -/

theorem mem_setAdd (s : List JSString) (x y : JSString) : y ∈ setAdd s x ↔ y ∈ s ∨ y = x := by
  unfold setAdd
  split
  · constructor
    · exact Or.inl
    · rintro (h | rfl)
      · exact h
      · assumption
  · simp

theorem nodup_setAdd (s : List JSString) (x : JSString) (h : s.Nodup) : (setAdd s x).Nodup := by
  unfold setAdd
  split
  · exact h
  · rw [List.nodup_append]
    refine ⟨h, by simp, ?_⟩
    intro a ha hb
    simp only [List.mem_singleton] at hb
    subst hb
    contradiction

/-- C16: `addToWhitelist(d)` adds exactly the lowercase form of `d` to the whitelist, and
`removeFromWhitelist(d)` leaves the previous entries other than the lowercase form of `d`, in
their order; neither touches another field of the engine. Removing `example.com` keeps a
separately added `sub.example.com`. -/
theorem whitelist_add_remove_exact (H : Host) (e : Engine) (d : JSString) :
    (∀ x, x ∈ (addToWhitelist H e d).whitelistDomains ↔
      x ∈ e.whitelistDomains ∨ x = H.toLowerCase d) ∧
    (∀ x, x ∈ (removeFromWhitelist H e d).whitelistDomains ↔
      x ∈ e.whitelistDomains ∧ x ≠ H.toLowerCase d) ∧
    (removeFromWhitelist H e d).whitelistDomains.Sublist e.whitelistDomains ∧
    (e.whitelistDomains.Nodup → (addToWhitelist H e d).whitelistDomains.Nodup ∧
      (removeFromWhitelist H e d).whitelistDomains.Nodup) ∧
    addToWhitelist H e d = { e with whitelistDomains := (addToWhitelist H e d).whitelistDomains } ∧
    removeFromWhitelist H e d =
      { e with whitelistDomains := (removeFromWhitelist H e d).whitelistDomains } ∧
    (H.toLowerCase "example.com".toList = "example.com".toList →
      H.toLowerCase "sub.example.com".toList = "sub.example.com".toList →
      "sub.example.com".toList ∈
        (removeFromWhitelist H
          (addToWhitelist H (addToWhitelist H e "example.com".toList) "sub.example.com".toList)
          "example.com".toList).whitelistDomains) := by
  refine ⟨fun x => mem_setAdd _ _ _, ?_, ?_, ?_, rfl, rfl, ?_⟩
  · intro x
    simp [removeFromWhitelist]
  · exact List.filter_sublist _
  · intro hnd
    exact ⟨nodup_setAdd _ _ hnd, hnd.sublist (List.filter_sublist _)⟩
  · intro h1 h2
    simp only [removeFromWhitelist, addToWhitelist, h1, h2, List.mem_filter, mem_setAdd]
    exact ⟨Or.inr trivial, by decide⟩

theorem whitelist_add_remove_exact_witness :
    (removeFromWhitelist (sampleHost "x")
      (addToWhitelist (sampleHost "x")
        (addToWhitelist (sampleHost "x") (sampleEngine [] ["partner.com"]) "example.com".toList)
        "sub.example.com".toList)
      "example.com".toList).whitelistDomains =
      ["partner.com".toList, "sub.example.com".toList] ∧
    "sub.example.com".toList ∈
      (removeFromWhitelist (sampleHost "x")
        (addToWhitelist (sampleHost "x")
          (addToWhitelist (sampleHost "x") (sampleEngine [] ["partner.com"])
            "example.com".toList)
          "sub.example.com".toList)
        "example.com".toList).whitelistDomains :=
  ⟨by decide,
    (whitelist_add_remove_exact (sampleHost "x") (sampleEngine [] ["partner.com"]) []).2.2.2.2.2.2
      rfl rfl⟩

/-! ## Parsing (`parseFilterList`, `parseFilter`) -/

theorem JS.substring_zero (s : JSString) (i : Nat) : JS.substring s 0 i = s.take i := by
  unfold JS.substring
  rcases Nat.le_total i s.length with h | h
  · simp [Nat.min_eq_left h]
  · simp [Nat.min_eq_right h, List.take_of_length_le h]

theorem JS.indexOf_some (c : Char) (s : JSString) (i : Nat) (h : JS.indexOf c s = some i) :
    s.take i = s.takeWhile (fun d => d != c) ∧ s.drop i = c :: s.drop (i + 1) := by
  induction s generalizing i with
  | nil => simp [JS.indexOf] at h
  | cons d ds ih =>
    rw [JS.indexOf] at h
    by_cases hd : d = c
    · rw [if_pos hd] at h
      cases h
      simp [hd]
    · rw [if_neg hd] at h
      rcases hi : JS.indexOf c ds with _ | j
      · rw [hi] at h
        cases h
      · rw [hi] at h
        cases h
        obtain ⟨h1, h2⟩ := ih j hi
        simp [hd, h1, h2]

theorem JS.indexOf_none (c : Char) (s : JSString) (h : JS.indexOf c s = none) :
    s.takeWhile (fun d => d != c) = s ∧ c ∉ s := by
  induction s with
  | nil => simp
  | cons d ds ih =>
    rw [JS.indexOf] at h
    by_cases hd : d = c
    · rw [if_pos hd] at h
      cases h
    · rw [if_neg hd] at h
      rcases hi : JS.indexOf c ds with _ | j
      · obtain ⟨h1, h2⟩ := ih hi
        simp [hd, h1, h2, Ne.symm hd]
      · rw [hi] at h
        cases h

theorem parseFilter_raw (line : JSString) : (parseFilter line).raw = line := rfl

theorem parseFilter_exception (line : JSString) :
    (parseFilter line).exception = JS.startsWith line ['@', '@'] := rfl

theorem afterExceptionMarker_eq (line : JSString) :
    afterExceptionMarker line =
      if JS.startsWith line ['@', '@'] then JS.substringFrom line 2 else line := by
  unfold afterExceptionMarker
  by_cases h : JS.startsWith line ['@', '@'] = true
  · have h' : "@@".toList <+: line := (JS.startsWith_iff _ _).1 h
    rw [if_pos h, if_pos h']
    rfl
  · have h' : ¬ ("@@".toList <+: line) := fun hp => h ((JS.startsWith_iff _ _).2 hp)
    rw [if_neg h, if_neg h']

theorem parseFilter_pattern (line : JSString) :
    (parseFilter line).pattern = (afterExceptionMarker line).takeWhile (fun d => d != '$') := by
  rw [afterExceptionMarker_eq]
  unfold parseFilter
  simp only
  generalize (if JS.startsWith line ['@', '@'] = true then JS.substringFrom line 2 else line) = rest
  rcases h : JS.indexOf '$' rest with _ | i
  · exact ((JS.indexOf_none _ _ h).1).symm
  · simp only
    rw [JS.substring_zero]
    exact (JS.indexOf_some _ _ _ h).1

theorem parseFilterList_eq_map (text : JSString) :
    parseFilterList text = (filterLines text).map parseFilter := by
  have hfold : ∀ (lines : List JSString) (acc : List Filter),
      lines.foldl
        (fun filters line =>
          if (JS.trim line).isEmpty || JS.startsWith (JS.trim line) ['!'] then filters
          else filters ++ [parseFilter (JS.trim line)]) acc =
      acc ++ ((lines.map JS.trim).filter
        (fun l => decide (l ≠ [] ∧ ¬ ['!'] <+: l))).map parseFilter := by
    intro lines
    induction lines with
    | nil => simp
    | cons l ls ih =>
      intro acc
      rw [List.foldl_cons, ih]
      by_cases hskip : ((JS.trim l).isEmpty || JS.startsWith (JS.trim l) ['!']) = true
      · have hdrop : decide (JS.trim l ≠ [] ∧ ¬ ['!'] <+: JS.trim l) = false := by
          rw [decide_eq_false_iff_not]
          rintro ⟨h1, h2⟩
          rw [Bool.or_eq_true, List.isEmpty_iff, JS.startsWith_iff] at hskip
          rcases hskip with h | h
          · exact h1 h
          · exact h2 h
        rw [if_pos hskip, List.map_cons, List.filter_cons]
        simp only [hdrop, Bool.false_eq_true, if_false]
      · have hkeep : decide (JS.trim l ≠ [] ∧ ¬ ['!'] <+: JS.trim l) = true := by
          rw [decide_eq_true_iff]
          rw [Bool.or_eq_true, List.isEmpty_iff, JS.startsWith_iff, not_or] at hskip
          exact hskip
        rw [if_neg hskip, List.map_cons, List.filter_cons]
        simp only [hkeep, if_true, List.map_cons, List.append_assoc, List.singleton_append]
  unfold parseFilterList filterLines
  rw [hfold]
  rfl

theorem mem_filterLines (text l : JSString) (h : l ∈ filterLines text) :
    l ≠ [] ∧ ¬ ['!'] <+: l := by
  unfold filterLines at h
  rw [List.mem_filter] at h
  exact of_decide_eq_true h.2

theorem parseFilterList_raw (text : JSString) (f : Filter) (h : f ∈ parseFilterList text) :
    f.raw ≠ [] ∧ ¬ ['!'] <+: f.raw := by
  rw [parseFilterList_eq_map, List.mem_map] at h
  obtain ⟨l, hl, rfl⟩ := h
  exact mem_filterLines text l hl

/-- C18: `parseFilterList(text)` is, in order, `parseFilter` applied to each line of the text
(split on newline, trimmed) that is non-empty and does not begin with `!`; no returned rule
has an empty `raw` or a `raw` beginning with `!`, and there are as many rules as such
lines. -/
theorem parseFilterList_lines (text : JSString) :
    parseFilterList text = (filterLines text).map parseFilter ∧
    (∀ f ∈ parseFilterList text, f.raw ≠ [] ∧ ¬ ['!'] <+: f.raw) ∧
    (parseFilterList text).length =
      ((JS.split '\n' text).map JS.trim).countP (fun l => decide (l ≠ [] ∧ ¬ ['!'] <+: l)) := by
  refine ⟨parseFilterList_eq_map text, parseFilterList_raw text, ?_⟩
  rw [parseFilterList_eq_map, List.length_map, filterLines, List.countP_eq_length_filter]

theorem parseFilterList_lines_witness :
    parseFilterList "! Title: test\n||ads.example.com^\r\n\n  ##.ad-box  \n!".toList =
      [parseFilter "||ads.example.com^".toList, parseFilter "##.ad-box".toList] := by
  rw [(parseFilterList_lines _).1]
  decide

/-- C17 (as the code has it): `parseFilter` returns a record for every line, empty and
comment lines included, and never null, so `addCustomFilter` stores a filter for every text;
the record of the empty line is a `network_plain` rule with an empty pattern. Empty lines and
lines beginning with `!` are skipped by `parseFilterList` before `parseFilter` is called, so
no rule of a loaded list comes from such a line. -/
theorem parseFilter_always_record (line : JSString) :
    (parseFilter line).raw = line ∧
    (∀ e : Engine, (addCustomFilter e line).customFilters = e.customFilters ++ [parseFilter line]) ∧
    (line = [] → (parseFilter line).type = .network_plain ∧ (parseFilter line).pattern = []) ∧
    (∀ text : JSString, ∀ f ∈ parseFilterList text, f.raw ≠ [] ∧ ¬ ['!'] <+: f.raw) := by
  refine ⟨rfl, fun _ => rfl, ?_, parseFilterList_raw⟩
  rintro rfl
  exact ⟨rfl, rfl⟩

theorem parseFilter_always_record_witness :
    (parseFilter []).type = .network_plain ∧ (parseFilter []).pattern = [] :=
  (parseFilter_always_record []).2.2.1 rfl

/-- C17 (counterexample): for the empty line and for the comment line `! ads`, `parseFilter`
returns a `network_plain` record, and `addCustomFilter` stores it. -/
theorem parseFilter_empty_and_comment :
    parseFilter [] =
      { raw := [], type := .network_plain, pattern := [], options := [], exception := false } ∧
    parseFilter "! ads".toList =
      { raw := "! ads".toList, type := .network_plain, pattern := "! ads".toList,
        options := [], exception := false } ∧
    (addCustomFilter (sampleEngine [] []) []).customFilters = [parseFilter []] ∧
    (addCustomFilter (sampleEngine [] []) "! ads".toList).customFilters =
      [parseFilter "! ads".toList] := by
  decide

theorem prefix_marker_takeWhile (rest : JSString) :
    "@@".toList <+: rest.takeWhile (fun d => d != '$') ↔ "@@".toList <+: rest := by
  constructor
  · intro h
    exact h.trans (List.takeWhile_prefix _)
  · rintro ⟨t, rfl⟩
    exact ⟨t.takeWhile (fun d => d != '$'), rfl⟩

theorem prefix_marker_after (line : JSString) :
    "@@".toList <+: afterExceptionMarker line ↔ "@@@@".toList <+: line := by
  unfold afterExceptionMarker
  by_cases h : "@@".toList <+: line
  · rw [if_pos h]
    obtain ⟨t, rfl⟩ := h
    constructor
    · rintro ⟨u, hu⟩
      refine ⟨u, ?_⟩
      have : t = "@@".toList ++ u := by simpa using hu.symm
      rw [this]
      rfl
    · rintro ⟨u, hu⟩
      refine ⟨u, ?_⟩
      have : t = '@' :: '@' :: u := by
        have h2 : '@' :: '@' :: '@' :: '@' :: u = '@' :: '@' :: t := hu
        simpa using h2.symm
      rw [this]
      rfl
  · rw [if_neg h]
    constructor
    · exact fun h' => absurd h' h
    · rintro ⟨u, hu⟩
      exact absurd ⟨'@' :: '@' :: u, hu⟩ h

/-- C19 (as the code has it): `parseFilter(line).exception` is true exactly when the line
starts with `@@`; the pattern is the text before the first `$` of the line with that one
marker removed, so it begins with `@@` again exactly when the line begins with `@@@@`;
`raw` is the full original line, and parsing `raw` again gives the same rule. -/
theorem parseFilter_exception_marker (line : JSString) :
    ((parseFilter line).exception = true ↔ "@@".toList <+: line) ∧
    (parseFilter line).pattern = (afterExceptionMarker line).takeWhile (fun d => d != '$') ∧
    ("@@".toList <+: (parseFilter line).pattern ↔ "@@@@".toList <+: line) ∧
    (parseFilter line).raw = line ∧
    parseFilter (parseFilter line).raw = parseFilter line := by
  refine ⟨?_, parseFilter_pattern line, ?_, rfl, rfl⟩
  · rw [parseFilter_exception]
    exact JS.startsWith_iff _ _
  · rw [parseFilter_pattern, prefix_marker_takeWhile, prefix_marker_after]

/-- C19 (counterexample): the line `@@@@ads` is an exception whose pattern, `@@ads`, begins
with the text of the marker that was removed. -/
theorem parseFilter_double_marker :
    (parseFilter "@@@@ads".toList).exception = true ∧
    (parseFilter "@@@@ads".toList).pattern = "@@ads".toList ∧
    "@@".toList <+: (parseFilter "@@@@ads".toList).pattern := by
  decide

/-! ## Sources of the compiled rules -/

theorem isEligible_iff (f : Filter) :
    isEligible f = true ↔ isNetworkKind f.type ∧ f.exception = false := by
  obtain ⟨raw, type, pattern, options, exception⟩ := f
  unfold isEligible isNetworkKind
  cases type <;> cases exception <;> simp <;> decide

theorem generateFromList_sources (fs : List Filter) :
    ∀ (rules : List Rule) (c : Nat), ∃ srcs : List (Filter × Rule),
      (generateFromList fs (rules, c)).1 = rules ++ srcs.map (·.2) ∧
      (srcs.map (·.1)).Sublist fs ∧
      ∀ s ∈ srcs, isEligible s.1 = true ∧ ∃ n, (convertFilterToRule n s.1).1 = some s.2 := by
  induction fs with
  | nil => exact fun rules c => ⟨[], by simp [generateFromList], by simp, by simp⟩
  | cons f fs ih =>
    intro rules c
    rw [generateFromList_cons]
    split
    · rename_i hel
      rcases hc : (convertFilterToRule c f).1 with _ | r
      · obtain ⟨srcs, h1, h2, h3⟩ := ih rules (c + 1)
        exact ⟨srcs, h1, h2.cons f, h3⟩
      · simp only
        split
        · refine ⟨[(f, r)], rfl, ?_, ?_⟩
          · exact List.Sublist.cons₂ f (List.nil_sublist fs)
          · intro s hs
            rw [List.mem_singleton] at hs
            subst hs
            exact ⟨hel, c, hc⟩
        · obtain ⟨srcs, h1, h2, h3⟩ := ih (rules ++ [r]) (c + 1)
          refine ⟨(f, r) :: srcs, by rw [h1]; simp, h2.cons₂ f, ?_⟩
          intro s hs
          rcases List.mem_cons.1 hs with rfl | hs
          · exact ⟨hel, c, hc⟩
          · exact h3 s hs
    · obtain ⟨srcs, h1, h2, h3⟩ := ih rules c
      exact ⟨srcs, h1, h2.cons f, h3⟩

theorem generateFromLists_sources (lists : List (JSString × List Filter)) :
    ∀ state : List Rule × Nat, ∃ srcs : List (Filter × Rule),
      (generateFromLists lists state).1 = state.1 ++ srcs.map (·.2) ∧
      (srcs.map (·.1)).Sublist (lists.flatMap (·.2)) ∧
      ∀ s ∈ srcs, isEligible s.1 = true ∧ ∃ n, (convertFilterToRule n s.1).1 = some s.2 := by
  induction lists with
  | nil => exact fun state => ⟨[], by simp [generateFromLists], by simp, by simp⟩
  | cons l lists ih =>
    intro state
    obtain ⟨name, fs⟩ := l
    obtain ⟨rules, c⟩ := state
    rw [generateFromLists]
    obtain ⟨s1, h1, hs1, he1⟩ := generateFromList_sources fs rules c
    obtain ⟨s2, h2, hs2, he2⟩ := ih (generateFromList fs (rules, c))
    refine ⟨s1 ++ s2, ?_, ?_, ?_⟩
    · rw [h2, h1, List.map_append, List.append_assoc]
    · rw [List.map_append, List.flatMap_cons]
      exact hs1.append hs2
    · intro s hs
      rcases List.mem_append.1 hs with hs | hs
      · exact he1 s hs
      · exact he2 s hs

/-- C11: compile eligibility and order. The rules that `generateDeclarativeRules` adds are
the conversions of a subsequence of the catalog's filters in list-then-rule order, rule by
rule in that same order, and every source filter has a network kind and no exception flag;
so no exception, cosmetic or cosmetic-exception filter yields a rule. -/
theorem compiled_rules_sources (w : Worker) :
    ∃ srcs : List (Filter × Rule),
      (generateDeclarativeRules w).declarativeRules = w.declarativeRules ++ srcs.map (·.2) ∧
      (srcs.map (·.1)).Sublist (w.integration.filterLists.flatMap (·.2)) ∧
      ∀ s ∈ srcs, (isNetworkKind s.1.type ∧ s.1.exception = false ∧
        s.1.type ≠ .cosmetic ∧ s.1.type ≠ .cosmetic_exception) ∧
        ∃ n, (convertFilterToRule n s.1).1 = some s.2 := by
  obtain ⟨srcs, h1, h2, h3⟩ :=
    generateFromLists_sources w.integration.filterLists (w.declarativeRules, w.ruleIdCounter)
  refine ⟨srcs, h1, h2, ?_⟩
  intro s hs
  obtain ⟨hel, hconv⟩ := h3 s hs
  obtain ⟨hk, hex⟩ := (isEligible_iff s.1).1 hel
  refine ⟨⟨hk, hex, ?_, ?_⟩, hconv⟩
  · intro h
    rw [isNetworkKind, h] at hk
    simp at hk
  · intro h
    rw [isNetworkKind, h] at hk
    simp at hk

/-! ## Whitelist membership -/

theorem JS.split_ne_nil (sep : Char) (s : JSString) : JS.split sep s ≠ [] := by
  cases s with
  | nil => simp [JS.split]
  | cons c cs =>
    rw [JS.split]
    split
    · simp
    · split <;> simp

theorem JS.join_split (sep : Char) (s : JSString) : JS.join sep (JS.split sep s) = s := by
  induction s with
  | nil => rfl
  | cons c cs ih =>
    rw [JS.split]
    split
    · rename_i hc
      rcases hs : JS.split sep cs with _ | ⟨p, ps⟩
      · exact absurd hs (JS.split_ne_nil sep cs)
      · rw [hs] at ih
        rw [JS.join, ih, hc]
        rfl
    · rcases hs : JS.split sep cs with _ | ⟨p, ps⟩
      · exact absurd hs (JS.split_ne_nil sep cs)
      · rw [hs] at ih
        simp only
        rw [← ih]
        cases ps with
        | nil => rfl
        | cons q qs => rfl

theorem JS.join_drop (sep : Char) (n : Nat) :
    ∀ parts : List JSString, n < parts.length →
      JS.join sep parts = JS.join sep (parts.drop n) ∨
      (sep :: JS.join sep (parts.drop n)) <:+ JS.join sep parts := by
  induction n with
  | zero => exact fun parts _ => Or.inl rfl
  | succ n ih =>
    intro parts hlen
    rcases parts with _ | ⟨p, _ | ⟨q, ps⟩⟩
    · simp at hlen
    · simp at hlen
    · rw [List.drop_succ_cons, JS.join]
      right
      rcases ih (q :: ps) (by simpa using hlen) with h | h
      · rw [← h]
        exact ⟨p, rfl⟩
      · obtain ⟨t, ht⟩ := h
        exact ⟨p ++ sep :: t, by rw [← ht]; simp⟩

theorem extractDomain_suffix (h : JSString) :
    h = extractDomain h ∨ ('.' :: extractDomain h) <:+ h := by
  unfold extractDomain
  simp only
  split
  · exact Or.inl rfl
  · rename_i hlen
    have := JS.join_drop '.' ((JS.split '.' h).length - 2) (JS.split '.' h) (by omega)
    rw [JS.join_split] at this
    exact this

/-- C15: whitelist membership. `isWhitelisted(url, h, extractDomain(h))` is true exactly when
`h` equals a whitelist entry or ends with a dot followed by one; when the last-two-labels
domain of `h` is an entry, `h` already equals that entry or is a dot-suffixed subdomain of
it, so the extra lookup whitelists nothing more. -/
theorem isWhitelisted_iff_entry (whitelist : List JSString) (url h : JSString) :
    (isWhitelisted whitelist url h (extractDomain h) = true ↔
      ∃ w ∈ whitelist, h = w ∨ ('.' :: w) <:+ h) ∧
    (extractDomain h ∈ whitelist → ∃ w ∈ whitelist, h = w ∨ ('.' :: w) <:+ h) := by
  have hdom : extractDomain h ∈ whitelist → ∃ w ∈ whitelist, h = w ∨ ('.' :: w) <:+ h :=
    fun hm => ⟨extractDomain h, hm, extractDomain_suffix h⟩
  refine ⟨⟨?_, ?_⟩, hdom⟩
  · intro hw
    unfold isWhitelisted at hw
    split at hw
    · rename_i hc
      simp only [Bool.or_eq_true, List.contains, List.elem_iff] at hc
      rcases hc with hc | hc
      · exact ⟨h, hc, Or.inl rfl⟩
      · exact hdom hc
    · rw [List.any_eq_true] at hw
      obtain ⟨w, hwm, hsuf⟩ := hw
      exact ⟨w, hwm, Or.inr ((JS.endsWith_iff _ _).1 hsuf)⟩
  · rintro ⟨w, hwm, hh⟩
    exact isWhitelisted_of_entry whitelist url h (extractDomain h) w hwm hh

/-! ## Option parsing (`parseOptions`) -/

/-- C13: the domain list is cut at its first comma. For the line
`ads.js$domain=a.com,b.com` the options are `domain: 'a.com'` and a stray flag `b.com`,
because `parseOptions` splits the tail on commas before `parseDomains` can, and the compiled
rule carries `initiatorDomains = ['a.com']`. -/
theorem domain_list_cut_at_comma :
    (parseFilter "ads.js$domain=a.com,b.com".toList).options =
      [("domain".toList, OptVal.str "a.com".toList), ("b.com".toList, OptVal.flag)] ∧
    (convertFilterToRule 1 (parseFilter "ads.js$domain=a.com,b.com".toList)).1.map
      (·.condition.initiatorDomains) = some (some ["a.com".toList]) := by
  decide

theorem Options.get_assign (o : Options) (k key : JSString) (v : OptVal) :
    (Options.assign o k v).get key = if k = key then some v else o.get key := by
  induction o with
  | nil =>
    by_cases h : k = key <;> simp [Options.assign, Options.get, h]
  | cons kv rest ih =>
    obtain ⟨k', w⟩ := kv
    rw [Options.assign]
    by_cases hk : k' = k
    · rw [if_pos hk]
      by_cases h : k = key
      · simp [Options.get, h, hk]
      · have : ¬ k' = key := by rw [hk]; exact h
        simp [Options.get, h, hk]
    · rw [if_neg hk]
      unfold Options.get at ih ⊢
      by_cases h' : k' = key
      · have : ¬ k = key := fun h => hk (h'.trans h.symm)
        simp [h', this]
      · simp only [List.find?_cons, h', decide_False]
        exact ih

theorem Options.get_set (o : Options) (k key : JSString) (v : OptVal)
    (hkey : key ≠ "__proto__".toList) :
    (o.set k v).get key = if k = key then some v else o.get key := by
  unfold Options.set
  split
  · rename_i hp
    have : ¬ k = key := fun h => hkey (h ▸ hp)
    rw [if_neg this]
  · exact Options.get_assign o k key v

theorem parseOptionsStep_eq (o : Options) (part : JSString) :
    parseOptionsStep o part = o.set (stepEntry part).1 (stepEntry part).2 := by
  unfold parseOptionsStep stepEntry
  simp only
  split <;> rfl

theorem lastValue_cons (e : JSString × OptVal) (es : List (JSString × OptVal)) (key : JSString) :
    lastValue (e :: es) key = (lastValue es key).or (if e.1 = key then some e.2 else none) := by
  unfold lastValue
  rw [List.reverse_cons, List.find?_append, List.find?_singleton]
  generalize List.find? _ es.reverse = r
  cases r <;> by_cases h : e.1 = key <;> simp [h]

theorem foldl_parseOptionsStep_get (key : JSString) (hkey : key ≠ "__proto__".toList)
    (parts : List JSString) :
    ∀ o : Options, (parts.foldl parseOptionsStep o).get key =
      (lastValue (parts.map stepEntry) key).or (o.get key) := by
  induction parts with
  | nil => intro o; simp [lastValue]
  | cons p ps ih =>
    intro o
    rw [List.foldl_cons, ih, parseOptionsStep_eq, Options.get_set _ _ _ _ hkey, List.map_cons,
      lastValue_cons]
    rcases lastValue (List.map stepEntry ps) key with _ | x
    · by_cases h : (stepEntry p).1 = key <;> simp [h]
    · simp

theorem parseOptions_get (tail key : JSString) (hkey : key ≠ "__proto__".toList) :
    (parseOptions tail).get key = lastValue ((JS.split ',' tail).map stepEntry) key := by
  unfold parseOptions
  rw [foldl_parseOptionsStep_get key hkey]
  simp [Options.get]

theorem JS.split_of_not_mem (sep : Char) (s : JSString) (h : sep ∉ s) : JS.split sep s = [s] := by
  induction s with
  | nil => rfl
  | cons c cs ih =>
    simp only [List.mem_cons, not_or] at h
    rw [JS.split, if_neg (Ne.symm h.1), ih h.2]

theorem JS.split_append_sep (sep : Char) (a b : JSString) (h : sep ∉ a) :
    JS.split sep (a ++ sep :: b) = a :: JS.split sep b := by
  induction a with
  | nil => simp [JS.split]
  | cons c cs ih =>
    simp only [List.mem_cons, not_or] at h
    rw [List.cons_append, JS.split, if_neg (Ne.symm h.1), ih h.2]

theorem JS.indexOf_append_sep (c : Char) (a b : JSString) (h : c ∉ a) :
    JS.indexOf c (a ++ c :: b) = some a.length := by
  induction a with
  | nil => simp [JS.indexOf]
  | cons d ds ih =>
    simp only [List.mem_cons, not_or] at h
    rw [List.cons_append, JS.indexOf, if_neg (Ne.symm h.1), ih h.2]
    rfl

theorem JS.trim_sublist (s : JSString) : (JS.trim s).Sublist s := by
  unfold JS.trim
  refine List.Sublist.trans ?_ (List.dropWhile_sublist JS.isWhiteSpace)
  rw [← List.reverse_sublist, List.reverse_reverse]
  exact List.dropWhile_sublist _

theorem not_mem_takeWhile_ne (c : Char) (s : JSString) : c ∉ s.takeWhile (fun d => d != c) := by
  intro h
  have := List.mem_takeWhile_imp h
  simp at this

theorem stepEntry_eq_documentedEntry (part : JSString) (hone : part.count '=' ≤ 1) :
    stepEntry part = documentedEntry part := by
  have hcount : (JS.trim part).count '=' ≤ 1 :=
    Nat.le_trans ((JS.trim_sublist part).count_le '=') hone
  unfold stepEntry documentedEntry
  generalize JS.trim part = t at hcount ⊢
  rcases hi : JS.indexOf '=' t with _ | i
  · have hno := (JS.indexOf_none _ _ hi).2
    have hinc : JS.includes t ['='] = false := by
      rw [Bool.eq_false_iff]
      exact fun h => hno ((JS.includes_singleton _ _).1 h)
    simp [hinc]
  · obtain ⟨h1, h2⟩ := JS.indexOf_some _ _ _ hi
    have ht : t = t.take i ++ '=' :: t.drop (i + 1) := by
      rw [← h2, List.take_append_drop]
    have hpre : '=' ∉ t.take i := by
      rw [h1]
      exact not_mem_takeWhile_ne _ _
    have hpost : '=' ∉ t.drop (i + 1) := by
      rw [← List.count_eq_zero]
      have hc : t.count '=' = (t.take i).count '=' + ((t.drop (i + 1)).count '=' + 1) := by
        conv_lhs => rw [ht]
        rw [List.count_append, List.count_cons_self]
      omega
    have hmem : '=' ∈ t := by
      rw [ht]
      simp
    have hinc : JS.includes t ['='] = true := (JS.includes_singleton _ _).2 hmem
    have hsplit : JS.split '=' t = [t.take i, t.drop (i + 1)] := by
      conv_lhs => rw [ht]
      rw [JS.split_append_sep _ _ _ hpre, JS.split_of_not_mem _ _ hpost]
    simp [hinc, hsplit]

theorem parseFilter_of_split (line pat tail : JSString)
    (hsplit : afterExceptionMarker line = pat ++ '$' :: tail) (hpat : '$' ∉ pat) :
    (parseFilter line).pattern = pat ∧ (parseFilter line).options = parseOptions tail := by
  rw [afterExceptionMarker_eq] at hsplit
  unfold parseFilter
  simp only
  rw [hsplit, JS.indexOf_append_sep _ _ _ hpat]
  simp [JS.substring_zero, JS.substringFrom]

/-- C20 (as the code has it): when the line without its leading `@@` is `pat$tail` with no
`$` in `pat`, the pattern is `pat`; when moreover every comma-separated entry of `tail` holds
at most one `=`, the options map every key other than `__proto__` to the value of the last
entry with that key, where an entry `key` gives true and an entry `key=value` gives the
value, key and value trimmed. -/
theorem parseFilter_options_last_wins (line pat tail : JSString)
    (hsplit : afterExceptionMarker line = pat ++ '$' :: tail) (hpat : '$' ∉ pat)
    (hone : ∀ part ∈ JS.split ',' tail, part.count '=' ≤ 1)
    (key : JSString) (hkey : key ≠ "__proto__".toList) :
    (parseFilter line).pattern = pat ∧
    (parseFilter line).options.get key =
      lastValue ((JS.split ',' tail).map documentedEntry) key := by
  obtain ⟨hp, ho⟩ := parseFilter_of_split line pat tail hsplit hpat
  refine ⟨hp, ?_⟩
  rw [ho, parseOptions_get tail key hkey]
  congr 1
  exact List.map_congr_left (fun part hpart => stepEntry_eq_documentedEntry part (hone part hpart))

theorem parseFilter_options_last_wins_witness :
    (parseFilter "@@||ads.example.com^$image, domain = a.com ,third-party,image=big".toList).pattern
      = "||ads.example.com^".toList ∧
    (parseFilter
      "@@||ads.example.com^$image, domain = a.com ,third-party,image=big".toList).options.get
      "image".toList = some (.str "big".toList) := by
  have h := parseFilter_options_last_wins
    "@@||ads.example.com^$image, domain = a.com ,third-party,image=big".toList
    "||ads.example.com^".toList "image, domain = a.com ,third-party,image=big".toList
    (by decide) (by decide) (by decide) "image".toList (by decide)
  refine ⟨h.1, ?_⟩
  rw [h.2]
  decide

/-- C20 (counterexample): in `ads.js$csp=script-src=x` the entry `csp=script-src=x` maps
`csp` to `script-src`, not to the text after the `=`, because `split('=', 2)` drops what
follows a second `=`; and in `ads.js$__proto__` the entry `__proto__` is not stored at
all. -/
theorem parseFilter_options_entry_cut :
    (parseFilter "ads.js$csp=script-src=x".toList).options =
      [("csp".toList, OptVal.str "script-src".toList)] ∧
    documentedEntry "csp=script-src=x".toList =
      ("csp".toList, OptVal.str "script-src=x".toList) ∧
    (parseFilter "ads.js$__proto__".toList).options = [] := by
  decide

/-! ## What the verdict depends on -/

theorem shouldBlockRequest_verdict (H : Host) (e : Engine) (request : Request) :
    (shouldBlockRequest H e request).1 =
      (e.initialized && !requestWhitelisted H e request &&
        (scanFilters request.url (requestHostname H request)
          (extractDomain (requestHostname H request)) e.rules == some true)) := by
  cases hinit : e.initialized
  · simp [shouldBlockRequest, hinit]
  · cases hwl : requestWhitelisted H e request
    · rw [shouldBlockRequest_eq_scan H e request hinit hwl]
      simp
    · unfold requestWhitelisted requestHostname at hwl
      simp [shouldBlockRequest, hinit, hwl]

theorem keepRules_rules (e : Engine) (keep : Filter → Bool) :
    (e.keepRules keep).rules = e.rules.filter keep := by
  unfold Engine.keepRules Engine.rules
  simp only
  induction e.filterLists with
  | nil => rfl
  | cons l ls ih => simp [List.flatMap_cons, ih]

theorem scanFilters_filter (u h d : JSString) (keep : Filter → Bool) (fs : List Filter)
    (hkeep : ∀ f ∈ fs, keep f = false → matchesFilter u h d f = false) :
    scanFilters u h d (fs.filter keep) = scanFilters u h d fs := by
  induction fs with
  | nil => rfl
  | cons f fs ih =>
    have ih' := ih (fun g hg => hkeep g (List.mem_cons_of_mem _ hg))
    cases hk : keep f
    · rw [List.filter_cons_of_neg (by simp [hk]), ih', scanFilters, hkeep f (by simp) hk]
      simp
    · rw [List.filter_cons_of_pos hk, scanFilters, scanFilters, ih']

theorem keepRules_verdict (H : Host) (e : Engine) (request : Request) (keep : Filter → Bool)
    (hkeep : ∀ f ∈ e.rules, keep f = false → ruleMatches H request f = false) :
    (shouldBlockRequest H (e.keepRules keep) request).1 = (shouldBlockRequest H e request).1 := by
  rw [shouldBlockRequest_verdict, shouldBlockRequest_verdict, keepRules_rules,
    scanFilters_filter _ _ _ keep e.rules hkeep]
  rfl

/-- C22: only network kinds take part in request matching. `matchesFilter` returns false for
every rule whose kind is cosmetic, cosmetic_exception or unknown, and taking all such rules
out of the loaded lists leaves every verdict of `shouldBlockRequest` unchanged: they neither
block nor act as exceptions. -/
theorem non_network_rules_never_match :
    (∀ (url hostname domain : JSString) (f : Filter),
      f.type = .cosmetic ∨ f.type = .cosmetic_exception ∨ f.type = .unknown →
      matchesFilter url hostname domain f = false) ∧
    (∀ (H : Host) (e : Engine) (request : Request),
      (shouldBlockRequest H
        (e.keepRules (fun f => decide (f.type ≠ .cosmetic ∧ f.type ≠ .cosmetic_exception ∧
          f.type ≠ .unknown))) request).1 = (shouldBlockRequest H e request).1) := by
  have hm : ∀ (url hostname domain : JSString) (f : Filter),
      f.type = .cosmetic ∨ f.type = .cosmetic_exception ∨ f.type = .unknown →
      matchesFilter url hostname domain f = false := by
    intro url hostname domain f hf
    unfold matchesFilter
    rcases hf with h | h | h <;> rw [h]
  refine ⟨hm, ?_⟩
  intro H e request
  apply keepRules_verdict
  intro f _ hk
  apply hm
  rw [decide_eq_false_iff_not] at hk
  by_contra hcon
  simp only [not_or] at hcon
  exact hk hcon

theorem non_network_rules_never_match_witness :
    (parseFilter "##.ad-box".toList).type = .cosmetic ∧
    matchesFilter "https://ads.example.com/##.ad-box".toList "ads.example.com".toList
      "example.com".toList (parseFilter "##.ad-box".toList) = false :=
  ⟨by decide, non_network_rules_never_match.1 _ _ _ _ (Or.inl (by decide))⟩

/-- C28: a `network_domain` rule whose pattern does not end with `^`, such as
`||example.com` or `||example.com/ads/*`, matches no URL and no hostname, and taking it out
of the loaded lists leaves every verdict of `shouldBlockRequest` unchanged: it never blocks
and never acts as an exception. -/
theorem domain_rule_without_separator_never_matches (f : Filter)
    (hkind : f.type = .network_domain) (hpattern : ¬ ['^'] <:+ f.pattern) :
    (∀ url hostname domain : JSString, matchesFilter url hostname domain f = false) ∧
    (∀ (H : Host) (e : Engine) (request : Request),
      (shouldBlockRequest H (e.keepRules (fun g => decide (g ≠ f))) request).1 =
        (shouldBlockRequest H e request).1) := by
  have hm : ∀ url hostname domain : JSString, matchesFilter url hostname domain f = false := by
    intro url hostname domain
    have he : JS.endsWith f.pattern ['^'] = false := by
      rw [Bool.eq_false_iff]
      exact fun h => hpattern ((JS.endsWith_iff _ _).1 h)
    simp [matchesFilter, hkind, matchesDomainPattern, he]
  refine ⟨hm, ?_⟩
  intro H e request
  apply keepRules_verdict
  intro g _ hk
  rw [decide_eq_false_iff_not, not_not] at hk
  rw [hk]
  exact hm _ _ _

theorem domain_rule_without_separator_never_matches_witness :
    (parseFilter "||example.com".toList).type = .network_domain ∧
    (parseFilter "||example.com/ads/*".toList).type = .network_domain ∧
    matchesFilter "https://example.com/ads/x.js".toList "example.com".toList
      "example.com".toList (parseFilter "||example.com".toList) = false ∧
    matchesFilter "https://example.com/ads/x.js".toList "example.com".toList
      "example.com".toList (parseFilter "||example.com/ads/*".toList) = false :=
  ⟨by decide, by decide,
    (domain_rule_without_separator_never_matches (parseFilter "||example.com".toList)
      (by decide) (by decide)).1 _ _ _,
    (domain_rule_without_separator_never_matches (parseFilter "||example.com/ads/*".toList)
      (by decide) (by decide)).1 _ _ _⟩

theorem matchesFilter_core (u h d : JSString) (f g : Filter) (hc : ruleCore f = ruleCore g) :
    matchesFilter u h d f = matchesFilter u h d g := by
  unfold ruleCore at hc
  simp only [Prod.mk.injEq] at hc
  obtain ⟨ht, hp, _⟩ := hc
  unfold matchesFilter
  rw [ht, hp]

theorem scanFilters_core (u h d : JSString) :
    ∀ fs gs : List Filter, fs.map ruleCore = gs.map ruleCore →
      scanFilters u h d fs = scanFilters u h d gs := by
  intro fs
  induction fs with
  | nil =>
    intro gs hc
    cases gs with
    | nil => rfl
    | cons g gs => simp at hc
  | cons f fs ih =>
    intro gs hc
    cases gs with
    | nil => simp at hc
    | cons g gs =>
      simp only [List.map_cons, List.cons.injEq] at hc
      have hex : f.exception = g.exception := by
        have := hc.1
        unfold ruleCore at this
        simp only [Prod.mk.injEq] at this
        exact this.2.2
      rw [scanFilters, scanFilters, matchesFilter_core u h d f g hc.1, hex, ih gs hc.2]

/-- C29: the verdict of `shouldBlockRequest` depends only on the request URL, the kind,
pattern and exception flag of the loaded rules in their order, the whitelist and the
initialised flag. Requests with the same URL (whatever their initiator and resource type) on
engines that agree on those (whatever the rules' options, `blockedRequests` and
`customFilters` are) receive the same verdict. -/
theorem verdict_depends_only_on_url_and_rule_cores (H : Host) (e e' : Engine)
    (request request' : Request) (hurl : request.url = request'.url)
    (hinit : e.initialized = e'.initialized)
    (hwl : e.whitelistDomains = e'.whitelistDomains)
    (hrules : e.rules.map ruleCore = e'.rules.map ruleCore) :
    (shouldBlockRequest H e request).1 = (shouldBlockRequest H e' request').1 := by
  rw [shouldBlockRequest_verdict, shouldBlockRequest_verdict]
  unfold requestWhitelisted requestHostname
  rw [hurl, hinit, hwl, scanFilters_core _ _ _ e.rules e'.rules hrules]

theorem verdict_depends_only_on_url_and_rule_cores_witness :
    (shouldBlockRequest (sampleHost "ads.example.com")
      { sampleEngine ["||ads.example.com^$domain=good.com"] [] with
        blockedRequests := ["https://old.example/".toList],
        customFilters := [parseFilter "@@||ads.example.com^".toList] }
      { url := "https://ads.example.com/x.js".toList, initiator := some "good.com".toList,
        resourceType := some "script".toList }).1 =
    (shouldBlockRequest (sampleHost "ads.example.com")
      (sampleEngine ["||ads.example.com^$image"] [])
      { url := "https://ads.example.com/x.js".toList, initiator := some "other.org".toList,
        resourceType := some "image".toList }).1 :=
  verdict_depends_only_on_url_and_rule_cores _ _ _ _ _ rfl rfl rfl (by decide)

/-- C30: for the rule that `parseFilter` makes of any line, `convertFilterToRule` returns
null exactly when the rule's options hold `domain` as a bare flag, as for `ads.js$domain`;
in that case and in every other the counter afterwards is the counter before plus one, and
in every other case a rule is returned, whose id is the counter before. -/
theorem convertFilterToRule_fails_iff_bare_domain (counter : Nat) (line : JSString) :
    ((convertFilterToRule counter (parseFilter line)).1 = none ↔
      (parseFilter line).options.get "domain".toList = some .flag) ∧
    (convertFilterToRule counter (parseFilter line)).2 = counter + 1 ∧
    ((parseFilter line).options.get "domain".toList ≠ some .flag →
      ∃ rule, (convertFilterToRule counter (parseFilter line)).1 = some rule ∧
        rule.id = counter) ∧
    (parseFilter "ads.js$domain".toList).options.get "domain".toList = some .flag ∧
    convertFilterToRule counter (parseFilter "ads.js$domain".toList) = (none, counter + 1) := by
  obtain ⟨h1, h2, h3⟩ := convertFilterToRule_spec counter (parseFilter line)
  refine ⟨⟨?_, ?_⟩, h1, ?_, by decide, rfl⟩
  · intro hnone
    by_contra hne
    obtain ⟨r, hr⟩ := h3 hne
    rw [hnone] at hr
    cases hr
  · intro hflag
    unfold convertFilterToRule
    simp only [hflag]
    rfl
  · intro hne
    obtain ⟨r, hr⟩ := h3 hne
    exact ⟨r, hr, h2 r hr⟩

theorem convertFilterToRule_fails_iff_bare_domain_witness :
    ∃ rule, (convertFilterToRule 7 (parseFilter "ads.js$domain=a.com".toList)).1 = some rule ∧
      rule.id = 7 :=
  (convertFilterToRule_fails_iff_bare_domain 7 "ads.js$domain=a.com".toList).2.2.1 (by decide)

/-! ## Fail-safe pattern matching -/

/-- C24: `matchesPattern` is total and fail-safe. Its value is that of the `try`/`catch`
block on the expression built from the pattern, which is false whenever the constructor
rejects the expression; and for every pattern the built expression is accepted, so for every
URL and pattern the result is the Boolean the test gives. -/
theorem matchesPattern_total_fail_safe :
    (∀ url pattern : JSString, matchesPattern url pattern = tryTest (regexSource pattern) url) ∧
    (∀ source url : JSString, RegExp.compile source = none → tryTest source url = false) ∧
    (∀ url pattern : JSString, ∃ regex, RegExp.compile (regexSource pattern) = some regex ∧
      matchesPattern url pattern = RegExp.test regex url) := by
  refine ⟨fun _ _ => rfl, ?_, ?_⟩
  · intro source url h
    unfold tryTest
    rw [h]
  · intro url pattern
    exact ⟨patternTerms pattern, regexSource_compiles pattern, matchesPattern_eq_test url pattern⟩

theorem matchesPattern_total_fail_safe_witness :
    RegExp.compile "a**".toList = none ∧
    tryTest "a**".toList "http://x.com/a**".toList = false :=
  ⟨by decide, matchesPattern_total_fail_safe.2.1 _ _ (by decide)⟩

/-! ## Domain extraction (`extractDomain`) -/

theorem JS.not_mem_of_mem_split (sep : Char) (s : JSString) :
    ∀ p ∈ JS.split sep s, sep ∉ p := by
  induction s with
  | nil => simp [JS.split]
  | cons c cs ih =>
    intro p hp
    rw [JS.split] at hp
    split at hp
    · rcases List.mem_cons.1 hp with rfl | hp
      · simp
      · exact ih p hp
    · rename_i hc
      rcases hs : JS.split sep cs with _ | ⟨q, qs⟩
      · rw [hs] at hp
        simp only [List.mem_singleton] at hp
        subst hp
        simpa using Ne.symm hc
      · rw [hs] at hp ih
        simp only at hp
        rcases List.mem_cons.1 hp with rfl | hp
        · have := ih q (by simp)
          simp only [List.mem_cons, not_or]
          exact ⟨Ne.symm hc, this⟩
        · exact ih p (List.mem_cons_of_mem _ hp)

theorem last_two_of_length (parts : List JSString) (hlen : 2 ≤ parts.length) :
    ∃ init a b, parts = init ++ [a, b] ∧ parts.drop (parts.length - 2) = [a, b] := by
  have hd : (parts.drop (parts.length - 2)).length = 2 := by
    rw [List.length_drop]
    omega
  rcases hdrop : parts.drop (parts.length - 2) with _ | ⟨a, _ | ⟨b, _ | ⟨c, rest⟩⟩⟩
  · rw [hdrop] at hd; simp at hd
  · rw [hdrop] at hd; simp at hd
  · refine ⟨parts.take (parts.length - 2), a, b, ?_, rfl⟩
    rw [← hdrop, List.take_append_drop]
  · rw [hdrop] at hd; simp at hd

/-- C25: for a hostname with at least two dot-separated labels `extractDomain` returns the
last two labels joined by a dot, so `foo.example.co.uk` gives `co.uk`; with fewer than two
labels it returns the hostname unchanged. It is idempotent and its result is a suffix of the
hostname. -/
theorem extractDomain_last_two_labels (h : JSString) :
    JS.join '.' (JS.split '.' h) = h ∧
    (2 ≤ (JS.split '.' h).length →
      ∃ init a b, JS.split '.' h = init ++ [a, b] ∧ extractDomain h = a ++ '.' :: b) ∧
    ((JS.split '.' h).length < 2 → extractDomain h = h) ∧
    extractDomain (extractDomain h) = extractDomain h ∧
    extractDomain h <:+ h ∧
    extractDomain "foo.example.co.uk".toList = "co.uk".toList := by
  have h2 : 2 ≤ (JS.split '.' h).length →
      ∃ init a b, JS.split '.' h = init ++ [a, b] ∧ extractDomain h = a ++ '.' :: b := by
    intro hlen
    obtain ⟨init, a, b, hparts, hdrop⟩ := last_two_of_length _ hlen
    refine ⟨init, a, b, hparts, ?_⟩
    unfold extractDomain
    simp only
    rw [if_neg (by omega), hdrop]
    rfl
  have h1 : (JS.split '.' h).length < 2 → extractDomain h = h := by
    intro hlen
    unfold extractDomain
    simp only
    rw [if_pos hlen]
  refine ⟨JS.join_split _ _, h2, h1, ?_, ?_, by decide⟩
  · by_cases hlen : (JS.split '.' h).length < 2
    · rw [h1 hlen, h1 hlen]
    · obtain ⟨init, a, b, hparts, hed⟩ := h2 (by omega)
      have ha : '.' ∉ a := JS.not_mem_of_mem_split '.' h a (by rw [hparts]; simp)
      have hb : '.' ∉ b := JS.not_mem_of_mem_split '.' h b (by rw [hparts]; simp)
      have hsplit : JS.split '.' (a ++ '.' :: b) = [a, b] := by
        rw [JS.split_append_sep _ _ _ ha, JS.split_of_not_mem _ _ hb]
      rw [hed]
      unfold extractDomain
      simp only [hsplit]
      rfl
  · rcases extractDomain_suffix h with heq | hsuf
    · rw [← heq]
    · exact (List.suffix_cons _ _).trans hsuf

theorem extractDomain_last_two_labels_witness :
    ∃ init a b, JS.split '.' "a.b.example.com".toList = init ++ [a, b] ∧
      extractDomain "a.b.example.com".toList = a ++ '.' :: b :=
  (extractDomain_last_two_labels "a.b.example.com".toList).2.1 (by decide)

/-! ## Anchored matching -/

theorem determineType_start (rest : JSString) (h : determineType rest = .network_start) :
    JS.startsWith rest ['|'] = true := by
  by_contra hs
  unfold determineType at h
  simp only [hs] at h
  split_ifs at h
  assumption

theorem determineType_end (rest : JSString) (h : determineType rest = .network_end) :
    JS.endsWith rest ['|'] = true := by
  by_contra hs
  unfold determineType at h
  simp only [hs] at h
  split_ifs at h
  assumption

theorem takeWhile_ne_of_not_mem (c : Char) (s : JSString) (h : c ∉ s) :
    s.takeWhile (fun d => d != c) = s := by
  induction s with
  | nil => rfl
  | cons d ds ih =>
    simp only [List.mem_cons, not_or] at h
    rw [List.takeWhile_cons, ih h.2]
    simp [Ne.symm h.1]

/-- Anchored matching where the pattern kept its anchor: for every rule that `parseFilter`
classifies as `network_start`, the pattern begins with `|` and `matchesFilter` is true
exactly when the URL starts with the pattern without that `|`; for every rule it classifies
as `network_end` whose pattern ends with `|`, which is always so when the line has no `$`,
`matchesFilter` is true exactly when the URL ends with the pattern without that `|`. -/
theorem anchored_matching (line : JSString) :
    ((parseFilter line).type = .network_start →
      ∃ p, (parseFilter line).pattern = '|' :: p ∧
        ∀ url hostname domain : JSString,
          (matchesFilter url hostname domain (parseFilter line) = true ↔ p <+: url)) ∧
    ((parseFilter line).type = .network_end →
      ∀ p, (parseFilter line).pattern = p ++ ['|'] →
        ∀ url hostname domain : JSString,
          (matchesFilter url hostname domain (parseFilter line) = true ↔ p <:+ url)) ∧
    ((parseFilter line).type = .network_end → '$' ∉ afterExceptionMarker line →
      ∃ p, (parseFilter line).pattern = p ++ ['|']) := by
  refine ⟨?_, ?_, ?_⟩
  · intro hk
    have hs := determineType_start _ ((parseFilter_type line).symm.trans hk)
    obtain ⟨r, hr⟩ := (JS.startsWith_iff _ _).1 hs
    have hp : (parseFilter line).pattern = '|' :: r.takeWhile (fun d => d != '$') := by
      rw [parseFilter_pattern, ← hr]
      rfl
    refine ⟨_, hp, ?_⟩
    intro url hostname domain
    unfold matchesFilter
    simp only [hk, hp, JS.substringFrom, List.drop_succ_cons, List.drop_zero]
    exact JS.startsWith_iff _ _
  · intro hk p hp url hostname domain
    unfold matchesFilter
    simp only [hk, hp, JS.substring_zero, List.length_append, List.length_singleton,
      Nat.add_sub_cancel, List.take_left']
    exact JS.endsWith_iff _ _
  · intro hk hno
    have he := determineType_end _ ((parseFilter_type line).symm.trans hk)
    obtain ⟨p, hp⟩ := (JS.endsWith_iff _ _).1 he
    refine ⟨p, ?_⟩
    rw [parseFilter_pattern, takeWhile_ne_of_not_mem _ _ hno, ← hp]

theorem anchored_matching_witness :
    (∃ p, (parseFilter "|https://ads.".toList).pattern = '|' :: p ∧
      ∀ url hostname domain : JSString,
        (matchesFilter url hostname domain (parseFilter "|https://ads.".toList) = true ↔
          p <+: url)) ∧
    (matchesFilter "http://x.com/movie.swf".toList "x.com".toList "x.com".toList
        (parseFilter ".swf|".toList) = true ↔
      ".swf".toList <:+ "http://x.com/movie.swf".toList) :=
  ⟨(anchored_matching "|https://ads.".toList).1 (by decide),
    (anchored_matching ".swf|".toList).2.1 (by decide) ".swf".toList (by decide) _ _ _⟩

/-- C21: an end anchor that follows the options is cut from the wrong text. The line
`ads$opt|` ends with `|`, so it is classified `network_end`, while its pattern is `ads`;
`matchesFilter` cuts the last character of the pattern and tests the suffix `ad`: it accepts
`http://x.com/ad`, which does not end with the pattern, and rejects `http://x.com/ads`,
which does. -/
theorem end_anchor_after_options :
    (parseFilter "ads$opt|".toList).type = .network_end ∧
    (parseFilter "ads$opt|".toList).pattern = "ads".toList ∧
    matchesFilter "http://x.com/ad".toList "x.com".toList "x.com".toList
      (parseFilter "ads$opt|".toList) = true ∧
    ¬ "ads".toList <:+ "http://x.com/ad".toList ∧
    matchesFilter "http://x.com/ads".toList "x.com".toList "x.com".toList
      (parseFilter "ads$opt|".toList) = false ∧
    "ads".toList <:+ "http://x.com/ads".toList := by
  decide

/-! ## The documented scenario -/

/-- C23: in the documented scenario the allowed URL is blocked. With the list
`||tracker.net^`, `@@||tracker.net/allowed^$domain=good.com` and the whitelist
`partner.com`, the exception rule does not match `https://tracker.net/allowed` (its pattern
is compared with the hostname) and the blocking rule, which comes first, does:
`shouldBlockRequest` returns true for the request from initiator `good.com`. The two other
statements of the scenario hold: `https://tracker.net/ads` is blocked and a URL with hostname
`x.partner.com` is allowed. -/
theorem scenario_allowed_url_is_blocked :
    ruleMatches (sampleHost "tracker.net")
      { url := "https://tracker.net/allowed".toList, initiator := some "good.com".toList,
        resourceType := none }
      (parseFilter "@@||tracker.net/allowed^$domain=good.com".toList) = false ∧
    (shouldBlockRequest (sampleHost "tracker.net")
      (sampleEngine ["||tracker.net^", "@@||tracker.net/allowed^$domain=good.com"]
        ["partner.com"])
      { url := "https://tracker.net/allowed".toList, initiator := some "good.com".toList,
        resourceType := none }).1 = true ∧
    (shouldBlockRequest (sampleHost "tracker.net")
      (sampleEngine ["||tracker.net^", "@@||tracker.net/allowed^$domain=good.com"]
        ["partner.com"])
      (sampleRequest "https://tracker.net/ads")).1 = true ∧
    (shouldBlockRequest (sampleHost "x.partner.com")
      (sampleEngine ["||tracker.net^", "@@||tracker.net/allowed^$domain=good.com"]
        ["partner.com"])
      (sampleRequest "https://x.partner.com/tracker.net/ads")).1 = false := by
  decide

/-! ## Cosmetic filtering -/

theorem splitOn_examples :
    JS.splitOn "##".toList "a##b##c".toList = ["a".toList, "b".toList, "c".toList] ∧
    JS.splitOn "##".toList "###".toList = [[], "#".toList] ∧
    JS.splitOn "##".toList "a##".toList = ["a".toList, []] := by
  decide

/-- C26: a cosmetic exception does not veto a hide. With the loaded list `##.ad`, `#@#.ad`
and an element that satisfies `.ad`, `applyCosmeticFilters` keeps only the filters of type
`cosmetic`, which drops the exception filter (its type is `cosmetic_exception`), and checking
the element hides it: it is marked, recorded in `blockedElements` and, where the platform
takes the style values, given `display: none !important`. The order of the two lines makes no
difference. -/
theorem cosmetic_exception_does_not_veto :
    (parseFilter "##.ad".toList).type = .cosmetic ∧
    (parseFilter "#@#.ad".toList).type = .cosmetic_exception ∧
    matchesSelector (sampleDom [".ad"] true) samplePage 0 ".ad".toList = true ∧
    (applyCosmeticFilters (sampleDom [".ad"] true)
      (sampleContentScript ["##.ad", "#@#.ad"] samplePage)).cosmeticFilters =
      [parseFilter "##.ad".toList] ∧
    (checkElementForBlocking (sampleDom [".ad"] true)
      (applyCosmeticFilters (sampleDom [".ad"] true)
        (sampleContentScript ["##.ad", "#@#.ad"] samplePage)) 0).blockedElements = [0] ∧
    ((checkElementForBlocking (sampleDom [".ad"] true)
      (applyCosmeticFilters (sampleDom [".ad"] true)
        (sampleContentScript ["##.ad", "#@#.ad"] samplePage)) 0).page 0).display =
      "none !important".toList ∧
    getAttribute ((checkElementForBlocking (sampleDom [".ad"] true)
      (applyCosmeticFilters (sampleDom [".ad"] true)
        (sampleContentScript ["##.ad", "#@#.ad"] samplePage)) 0).page 0).attributes
      "data-ublock-blocked".toList = some "true".toList ∧
    (checkElementForBlocking (sampleDom [".ad"] true)
      (applyCosmeticFilters (sampleDom [".ad"] true)
        (sampleContentScript ["#@#.ad", "##.ad"] samplePage)) 0).blockedElements = [0] ∧
    (checkElementForBlocking (sampleDom [".ad"] false)
      (applyCosmeticFilters (sampleDom [".ad"] false)
        (sampleContentScript ["##.ad", "#@#.ad"] samplePage)) 0).blockedElements = [0] := by
  decide

theorem getAttribute_removeAttribute (attributes : List (JSString × JSString))
    (name : JSString) : getAttribute (removeAttribute attributes name) name = none := by
  unfold getAttribute removeAttribute
  rw [Option.map_eq_none', List.find?_eq_none]
  intro a ha
  rw [List.mem_filter] at ha
  simpa using ha.2

theorem blockThenUnblock_resets {Element : Type} [DecidableEq Element] (dom : Dom Element)
    (cs : ContentScript Element) (e : Element) :
    ((blockThenUnblock dom cs e).page e).display = [] ∧
    ((blockThenUnblock dom cs e).page e).visibility = [] ∧
    ((blockThenUnblock dom cs e).page e).opacity = [] ∧
    ((blockThenUnblock dom cs e).page e).height = [] ∧
    ((blockThenUnblock dom cs e).page e).width = [] ∧
    ((blockThenUnblock dom cs e).page e).overflow = [] ∧
    getAttribute ((blockThenUnblock dom cs e).page e).attributes "data-ublock-blocked".toList =
      none ∧
    e ∉ (blockThenUnblock dom cs e).blockedElements := by
  unfold blockThenUnblock unblockElement blockElement
  simp only [resolveTarget, Function.update_same, setStyle, List.isEmpty_nil, if_true,
    getAttribute_removeAttribute, true_and]
  simp

/-- C27: the round trip resets instead of restoring. For an element whose inline style has
`display: block` and which carries the attribute `data-ublock-blocked="manual"`,
`blockElement` followed by `unblockElement` leaves `display` empty and the attribute absent,
whether or not the platform takes the style values: `unblockElement` writes the empty string
and removes the attribute, and nothing has kept the earlier values. The element is left out
of `blockedElements`. -/
theorem round_trip_loses_inline_style :
    (styledPage 0).display = "block".toList ∧
    ((blockThenUnblock (sampleDom [] true) (sampleContentScript [] styledPage) 0).page 0).display
      = [] ∧
    ((blockThenUnblock (sampleDom [] false) (sampleContentScript [] styledPage) 0).page 0).display
      = [] ∧
    getAttribute (styledPage 0).attributes "data-ublock-blocked".toList =
      some "manual".toList ∧
    getAttribute
      ((blockThenUnblock (sampleDom [] true) (sampleContentScript [] styledPage) 0).page
        0).attributes "data-ublock-blocked".toList = none ∧
    0 ∉ (blockThenUnblock (sampleDom [] true) (sampleContentScript [] styledPage)
      0).blockedElements := by
  decide

end UBlock
